import Mathlib

/-!
Verification development for the yt2pc podcast pipeline (src/yt2pc.py).

The Python source is shallowly embedded: pure fragments become Lean
functions, filesystem effects become explicit maps from paths to file
contents, and the two external collaborators that the scheduling logic
depends on (the croniter recurrence library and the external media
tools) are abstracted as explicit function parameters of an environment
record.  Strings are modelled as lists of characters where character
level reasoning is needed.  Machine level concerns (actual process
spawning, logging output) are outside the embedding.

Layout: all definitions come first, all theorems afterwards.
-/

namespace Yt2pc

/-! # Definitions -/

/-! ## Decimal digits

`digitToChar`/`charToDigit` model the decimal digit rendering used by
Python `%` style zero padded formatting (`%04d`, `%02d`, `%06d`) and its
reading back by the timestamp parser.
-/

def digitToChar (n : Nat) : Char :=
  if n = 0 then '0' else if n = 1 then '1' else if n = 2 then '2'
  else if n = 3 then '3' else if n = 4 then '4' else if n = 5 then '5'
  else if n = 6 then '6' else if n = 7 then '7' else if n = 8 then '8'
  else '9'

def charToDigit (c : Char) : Option Nat :=
  if c = '0' then some 0 else if c = '1' then some 1 else if c = '2' then some 2
  else if c = '3' then some 3 else if c = '4' then some 4 else if c = '5' then some 5
  else if c = '6' then some 6 else if c = '7' then some 7 else if c = '8' then some 8
  else if c = '9' then some 9 else none

/-! ## Whitespace, Python `str.strip` and `str.split` -/

/-- The whitespace characters recognised by Python `str.strip()` and
`str.split()` with no argument. -/
def isSpaceChar (c : Char) : Bool :=
  c = ' ' || c = '\t' || c = '\n' || c = '\x0b' || c = '\x0c' || c = '\r'

/-- Python `str.lstrip()` on a list of characters. -/
def lstripChars (l : List Char) : List Char := l.dropWhile isSpaceChar

/-- Python `str.strip()` on a list of characters: drop whitespace at
both ends. -/
def stripChars (l : List Char) : List Char :=
  ((lstripChars l).reverse.dropWhile isSpaceChar).reverse

/-- Python `str.split()` with no separator argument: split on runs of
whitespace, with no empty words produced. -/
def splitWords (l : List Char) : List (List Char) :=
  match l with
  | [] => []
  | c :: rest =>
    if isSpaceChar c then splitWords rest
    else (c :: rest.takeWhile (fun x => !isSpaceChar x)) ::
      splitWords (rest.dropWhile (fun x => !isSpaceChar x))
termination_by l.length
decreasing_by
  · simp only [List.length_cons]; omega
  · simp only [List.length_cons]
    have : (List.dropWhile (fun x => !isSpaceChar x) rest).length ≤ rest.length := by
      induction rest with
      | nil => simp [List.dropWhile]
      | cons a as ih =>
        simp only [List.dropWhile]
        cases !isSpaceChar a <;> simp <;> omega
    omega

/-! ## Timezone-aware datetimes

`DT` models a Python `datetime.datetime` carrying an explicit UTC
offset (`tzoffset`), at microsecond resolution.  `isoformat` models
`datetime.isoformat()` for such a value; `parseIso` models the external
`dateutil.parser.parse` on exactly the ISO-8601 strings `isoformat`
emits (the documented inverse behaviour of that external library).
-/

structure DT where
  year : Nat
  month : Nat
  day : Nat
  hour : Nat
  minute : Nat
  second : Nat
  micro : Nat
  offMin : Int
deriving DecidableEq, Repr

/-- Field bounds of a representable Python `datetime`: calendar fields in
range, microseconds below one million, UTC offset strictly within one day
(in minutes). -/
def DT.wf (t : DT) : Prop :=
  1 ≤ t.year ∧ t.year ≤ 9999 ∧ 1 ≤ t.month ∧ t.month ≤ 12 ∧ 1 ≤ t.day ∧ t.day ≤ 31 ∧
  t.hour ≤ 23 ∧ t.minute ≤ 59 ∧ t.second ≤ 59 ∧ t.micro ≤ 999999 ∧ t.offMin.natAbs ≤ 1439

instance (t : DT) : Decidable t.wf := by
  unfold DT.wf
  infer_instance

/-- Python comparison of two timezone-aware datetimes carrying the same
UTC offset (the only comparisons the program performs: both operands are
normalised to UTC offset zero): lexicographic on the calendar and time
fields. -/
def DT.lt (a b : DT) : Bool :=
  if a.year ≠ b.year then decide (a.year < b.year)
  else if a.month ≠ b.month then decide (a.month < b.month)
  else if a.day ≠ b.day then decide (a.day < b.day)
  else if a.hour ≠ b.hour then decide (a.hour < b.hour)
  else if a.minute ≠ b.minute then decide (a.minute < b.minute)
  else if a.second ≠ b.second then decide (a.second < b.second)
  else decide (a.micro < b.micro)

/-- Zero padded two digit decimal rendering (`%02d`, for values below 100). -/
def pad2 (n : Nat) : List Char := [digitToChar (n / 10), digitToChar (n % 10)]

/-- Zero padded four digit decimal rendering (`%04d`, for values below 10000). -/
def pad4 (n : Nat) : List Char :=
  [digitToChar (n / 1000), digitToChar (n / 100 % 10), digitToChar (n / 10 % 10),
   digitToChar (n % 10)]

/-- Zero padded six digit decimal rendering (`%06d`, for values below 1000000). -/
def pad6 (n : Nat) : List Char :=
  [digitToChar (n / 100000), digitToChar (n / 10000 % 10), digitToChar (n / 1000 % 10),
   digitToChar (n / 100 % 10), digitToChar (n / 10 % 10), digitToChar (n % 10)]

/-- The `%Y%m%d` strftime pattern used to build audio file names
(src/yt2pc.py line 214). -/
def formatYMD (t : DT) : List Char := pad4 t.year ++ pad2 t.month ++ pad2 t.day

/-- The microsecond and UTC offset portion of `datetime.isoformat()`:
microseconds are printed only when nonzero, the offset always as
`+HH:MM` or `-HH:MM`. -/
def isoTail (t : DT) : List Char :=
  (if t.micro = 0 then [] else '.' :: pad6 t.micro) ++
  (if 0 ≤ t.offMin then '+' else '-') :: pad2 (t.offMin.natAbs / 60) ++
  ':' :: pad2 (t.offMin.natAbs % 60)

/-- Python `datetime.isoformat()` for a timezone-aware datetime. -/
def isoformat (t : DT) : List Char :=
  pad4 t.year ++ '-' :: pad2 t.month ++ '-' :: pad2 t.day ++ 'T' :: pad2 t.hour ++
  ':' :: pad2 t.minute ++ ':' :: pad2 t.second ++ isoTail t

def parse2 (a b : Char) : Option Nat :=
  match charToDigit a, charToDigit b with
  | some x, some y => some (10 * x + y)
  | _, _ => none

def parse4 (a b c d : Char) : Option Nat :=
  match charToDigit a, charToDigit b, charToDigit c, charToDigit d with
  | some x, some y, some z, some w => some (1000 * x + 100 * y + 10 * z + w)
  | _, _, _, _ => none

def parse6 (a b c d e f : Char) : Option Nat :=
  match charToDigit a, charToDigit b, charToDigit c, charToDigit d, charToDigit e,
      charToDigit f with
  | some x, some y, some z, some w, some u, some v =>
    some (100000 * x + 10000 * y + 1000 * z + 100 * w + 10 * u + v)
  | _, _, _, _, _, _ => none

/-- Reading back the `+HH:MM` / `-HH:MM` offset suffix. -/
def parseOffTail (y mo d h mi s us : Nat) (rest : List Char) : Option DT :=
  match rest with
  | sc :: o1 :: o2 :: ':' :: o3 :: o4 :: [] =>
    match parse2 o1 o2, parse2 o3 o4 with
    | some oh, some om =>
      if sc = '+' then some ⟨y, mo, d, h, mi, s, us, ((oh * 60 + om : Nat) : Int)⟩
      else if sc = '-' then some ⟨y, mo, d, h, mi, s, us, -((oh * 60 + om : Nat) : Int)⟩
      else none
    | _, _ => none
  | _ => none

/-- Reading back the optional `.ffffff` microsecond part, then the offset. -/
def parseMicroTail (y mo d h mi s : Nat) (rest : List Char) : Option DT :=
  match rest with
  | '.' :: u1 :: u2 :: u3 :: u4 :: u5 :: u6 :: rest2 =>
    match parse6 u1 u2 u3 u4 u5 u6 with
    | some us => parseOffTail y mo d h mi s us rest2
    | none => none
  | rest => parseOffTail y mo d h mi s 0 rest

/-- `dateutil.parser.parse` restricted to the ISO-8601 shape produced by
`isoformat` (modelling the external parser on exactly those inputs). -/
def parseIso (cs : List Char) : Option DT :=
  match cs with
  | y1 :: y2 :: y3 :: y4 :: '-' :: m1 :: m2 :: '-' :: d1 :: d2 :: 'T' :: h1 :: h2 :: ':' ::
      n1 :: n2 :: ':' :: s1 :: s2 :: rest =>
    match parse4 y1 y2 y3 y4, parse2 m1 m2, parse2 d1 d2, parse2 h1 h2, parse2 n1 n2,
        parse2 s1 s2 with
    | some y, some mo, some d, some h, some mi, some s => parseMicroTail y mo d h mi s rest
    | _, _, _, _, _, _ => none
  | _ => none

/-! ## Audio file naming (src/yt2pc.py `download` line 214 and
`write_podcast` lines 272-275) -/

/-- The dedup/join key built at download time:
the Python f-string `show_id + "-" + date %Y%m%d + "-" + item_id`. -/
def episodeBaseName (show_id : List Char) (t : DT) (item_id : List Char) : List Char :=
  show_id ++ '-' :: formatYMD t ++ '-' :: item_id

/-- Full on-disk audio file name: the base name plus the `.mp3` suffix
added by the transcode step (src/yt2pc.py line 185). -/
def mp3FileName (show_id : List Char) (t : DT) (item_id : List Char) : List Char :=
  episodeBaseName show_id t item_id ++ (".mp3").data

/-- Helper for splitting on a dash: the input is what remains after
dropping the characters before the next dash; consume that dash, or fail
when there is none left. -/
def splitAfterDash (l : List Char) : Option (List Char) :=
  match l with
  | c :: r => if c = '-' then some r else none
  | [] => none

/-- Feed-publish-time recovery of the episode id from a file name
(src/yt2pc.py lines 274-275): drop everything from the first dot
(`filename.split(chr(46))[0]`), then split on dashes at most twice and
take the third piece.  `none` models the `IndexError` raised when the
name has fewer than two dashes. -/
def feedEpisodeId (filename : List Char) : Option (List Char) :=
  match splitAfterDash
      ((filename.takeWhile (fun c => c != '.')).dropWhile (fun c => c != '-')) with
  | some r1 =>
    match splitAfterDash (r1.dropWhile (fun c => c != '-')) with
    | some r2 => some r2
    | none => none
  | none => none

/-! ## Episode selection (src/yt2pc.py `get_playlist_content` lines 95-123) -/

/-- One record of the flat playlist listing, as consumed by the
filtering loop: its title and its episode URL. -/
structure FlatEpisode where
  title : List Char
  url : String
deriving DecidableEq, Repr

/-- Python `needle in haystack` substring test on strings. -/
def containsSub (needle hay : List Char) : Bool :=
  hay.tails.any (fun t => needle.isPrefixOf t)

/-- The filtering loop of `get_playlist_content` (lines 109-122): with no
filters every URL is kept; with filters a URL is kept when the lowercased
title contains at least one (already lowercased) filter keyword. -/
def usefulLoop (fs : Option (List (List Char))) : List FlatEpisode → List String
  | [] => []
  | e :: rest =>
    match fs with
    | none => e.url :: usefulLoop none rest
    | some fl =>
      if fl.any (fun f => containsSub f (e.title.map Char.toLower)) then
        e.url :: usefulLoop (some fl) rest
      else usefulLoop (some fl) rest

/-- Python `l[-n:]`. -/
def takeLast (n : Nat) (l : List α) : List α := l.drop (l.length - n)

/-- The selection stage of `get_playlist_content` (lines 95-123), applied
to the (already merged and sorted) episode listing: lowercase the filter
keywords once, run the filtering loop, keep the last 10 entries. -/
def selectUseful (eps : List FlatEpisode) (filters : Option (List (List Char))) :
    List String :=
  takeLast 10 (usefulLoop (filters.map (fun fl => fl.map (List.map Char.toLower))) eps)

/-! ## Audio format resolution (src/yt2pc.py lines 28-33 and 128-150) -/

/-- The fixed preference-ordered list of known audio format identifiers
(src/yt2pc.py lines 28-33). -/
def FORMATS : List String := ["141", "140", "140-0", "139"]

/-- Format selection for one episode (lines 130-136): scan `FORMATS` in
order against the identifiers reported for the episode; the first entry
present wins.  `none` models the `ValueError` raised by the loop's
`else` clause when no preferred format is present. -/
def bestFormat (all_formats_id : List String) : Option String :=
  FORMATS.find? (fun f => all_formats_id.contains f)

/-- The per-batch format resolution loop of `get_playlist_content`
(lines 128-150, restricted to format selection): episodes are processed
in order and a single episode with no matching format aborts the whole
batch with an error, discarding every already-resolved episode. -/
def resolveFormats : List (List String) → Except String (List String)
  | [] => .ok []
  | fmts :: rest =>
    match bestFormat fmts with
    | none => .error "Best format not found"
    | some b =>
      match resolveFormats rest with
      | .error e => .error e
      | .ok bs => .ok (b :: bs)

/-! ## Dedup filter (src/yt2pc.py `download` lines 198-221) -/

/-- Classification of one episode record by the download loop. -/
inductive EpAction
  | skippedOld
  | skippedDup
  | downloaded
deriving DecidableEq, Repr

/-- The glob pattern `show_id*.mp3` of line 204: the file names the
dedup filter consults are exactly those starting with the show id and
ending in `.mp3`. -/
def globShowMp3 (show_id : List Char) (name : List Char) : Bool :=
  show_id.isPrefixOf name && (".mp3").data.isSuffixOf name &&
    decide (show_id.length + 4 ≤ name.length)

/-- `already_downloaded` (lines 204-205): the directory listing
restricted by the glob. -/
def alreadyDownloaded (show_id : List Char) (dir_files : List (List Char)) :
    List (List Char) :=
  dir_files.filter (globShowMp3 show_id)

/-- The per-item decision of the download loop (lines 208-221): skip when
the publish date predates the start timestamp; else skip when some
already-downloaded file name starts with the computed base name; else
download. -/
def downloadAction (start_timestamp : DT) (show_id : List Char)
    (dir_files : List (List Char)) (item_date : DT) (item_id : List Char) : EpAction :=
  if DT.lt item_date start_timestamp then .skippedOld
  else if (alreadyDownloaded show_id dir_files).any
      (fun x => (episodeBaseName show_id item_date item_id).isPrefixOf x) then .skippedDup
  else .downloaded

/-! ## Association lists modelling Python dicts

`dictSet` updates in place (preserving the position of an existing key,
appending a new one at the end) and `dictGet` reads, exactly like a
Python dict preserving insertion order. -/

def dictSet {K V : Type} [DecidableEq K] : List (K × V) → K → V → List (K × V)
  | [], k, v => [(k, v)]
  | (k0, v0) :: rest, k, v =>
    if k0 = k then (k0, v) :: rest else (k0, v0) :: dictSet rest k v

def dictGet {K V : Type} [DecidableEq K] : List (K × V) → K → Option V
  | [], _ => none
  | (k0, v0) :: rest, k => if k0 = k then some v0 else dictGet rest k

/-! ## History store (src/yt2pc.py `History` lines 296-327) -/

/-- A filesystem as a map from paths to file contents, a file being a
list of lines; each line is written with a trailing newline which line
iteration plus `strip()` removes again, so lines are stored bare. -/
def FSMap : Type := List Char → Option (List (List Char))

def fsWrite (p : List Char) (content : List (List Char)) (fs : FSMap) : FSMap :=
  fun q => if q = p then some content else fs q

def fsRename (src dst : List Char) (fs : FSMap) : FSMap :=
  fun q => if q = dst then fs src else if q = src then none else fs q

/-- Python string comparison (code point lexicographic), used as the
sort key when serialising the history. -/
def lexLe : List Char → List Char → Bool
  | [], _ => true
  | _ :: _, [] => false
  | a :: as, b :: bs =>
    if a.val < b.val then true else if b.val < a.val then false else lexLe as bs

structure History where
  history_file : List Char
  data : List (List Char × DT)

/-- One history line: `show_id`, a space, the ISO timestamp (line 320). -/
def serializeLine (e : List Char × DT) : List Char := e.1 ++ ' ' :: isoformat e.2

/-- The lines `_save` writes (lines 315-322): all entries, sorted by
show id. -/
def History.saveLines (h : History) : List (List Char) :=
  (h.data.mergeSort (fun a b => lexLe a.1 b.1)).map serializeLine

/-- `_save` (lines 315-322): write the full serialisation to a temporary
file, then rename it over the history file. -/
def History.save (h : History) (fs : FSMap) : FSMap :=
  fsRename (h.history_file ++ (".temp").data) h.history_file
    (fsWrite (h.history_file ++ (".temp").data) h.saveLines fs)

/-- `set` (lines 324-327): update the entry and save immediately. -/
def History.set (h : History) (show_id : List Char) (last_run : DT) (fs : FSMap) :
    History × FSMap :=
  (⟨h.history_file, dictSet h.data show_id last_run⟩,
   History.save ⟨h.history_file, dictSet h.data show_id last_run⟩ fs)

/-- `get` (lines 311-313). -/
def History.get (h : History) (show_id : List Char) : Option DT :=
  dictGet h.data show_id

/-- Parsing one history line (lines 305-307): strip, split on
whitespace, unpack exactly two words, parse the timestamp; any failure
is fatal. -/
def parseHistoryLine (l : List Char) : Option (List Char × DT) :=
  match splitWords (stripChars l) with
  | [sid, ts] =>
    match parseIso ts with
    | some t => some (sid, t)
    | none => none
  | _ => none

def parseHistoryLines : List (List Char) → Option (List (List Char × DT))
  | [] => some []
  | l :: rest =>
    match parseHistoryLine l with
    | none => none
    | some e =>
      match parseHistoryLines rest with
      | none => none
      | some es => some (e :: es)

/-- `History.__init__` (lines 298-309): an absent file yields empty
history; otherwise every line is parsed (a malformed line is fatal) and
the entries are inserted in order into a fresh dict. -/
def History.load (history_file : List Char) (fs : FSMap) : Option History :=
  match fs history_file with
  | none => some ⟨history_file, []⟩
  | some lines =>
    match parseHistoryLines lines with
    | none => none
    | some es => some ⟨history_file, es.foldl (fun d e => dictSet d e.1 e.2) []⟩

/-! ## Config loader (src/yt2pc.py `load_config` lines 330-369) -/

def requiredMainKeys : List String := ["base-public-url", "podcast-dir", "history-file"]

def requiredShowKeys : List String :=
  ["title", "description", "url", "cron", "start-timestamp"]

/-- Python `str.isalnum()` (ASCII fragment, which covers the ids the
claims exercise): nonempty and all alphanumeric. -/
def strIsAlnum (s : String) : Bool :=
  !s.data.isEmpty && s.data.all Char.isAlphanum

/-- One show's YAML mapping, as far as validation observes it: the keys
present, plus the values the loader reads when the show is accepted. -/
structure RawShow where
  keys : List String
  cron : String
  start : DT
deriving DecidableEq, Repr

/-- The YAML document: either not a mapping at all, or a mapping holding
the key list of its `main` section (empty when `main` is absent) and its
optional `shows` section (an absent `shows` raises `KeyError`, not
`ValueError`). -/
inductive RawConfig
  | notMap
  | map (mainKeys : List String) (shows : Option (List (String × RawShow)))
deriving DecidableEq, Repr

inductive LoadErr
  | valueError (msg : String)
  | keyError
deriving DecidableEq, Repr

structure LoadedShow where
  id : String
  cron : String
  start : DT
deriving DecidableEq, Repr

/-- `datetime.fromordinal(tstamp.toordinal())` plus
`default_tzinfo(DFLT_TZ)` (lines 361-364): truncate to the calendar day,
time of day zero, at UTC offset zero. -/
def normalizeStart (t : DT) : DT := ⟨t.year, t.month, t.day, 0, 0, 0, 0, 0⟩

/-- The `shows` loop of `load_config` (lines 346-367): ids are validated
before the `--show` selection skip, required keys only after it. -/
def loadShows (sel : Option String) :
    List (String × RawShow) → Except String (List LoadedShow)
  | [] => .ok []
  | (show_id, show_data) :: rest =>
    if strIsAlnum show_id = false then
      .error "Bad format for show id (must be alphanumerical)"
    else if sel ≠ none ∧ sel ≠ some show_id then loadShows sel rest
    else if (requiredShowKeys.filter
        (fun k => !(show_data.keys.contains k))).isEmpty = false then
      .error "Missing keys for show id"
    else
      match loadShows sel rest with
      | .error e => .error e
      | .ok ls => .ok (⟨show_id, show_data.cron, normalizeStart show_data.start⟩ :: ls)

structure Config where
  mainKeys : List String
  shows : List LoadedShow
deriving DecidableEq, Repr

/-- `load_config` (lines 330-369): reject a non-mapping document, then a
main section with missing keys, then run the shows loop. -/
def load_config (raw : RawConfig) (sel : Option String) : Except LoadErr Config :=
  match raw with
  | .notMap => .error (.valueError "Bad general config format, must be a dict or map.")
  | .map mainKeys showsOpt =>
    if (requiredMainKeys.filter (fun k => !(mainKeys.contains k))).isEmpty = false then
      .error (.valueError "Missing keys in main config")
    else
      match showsOpt with
      | none => .error .keyError
      | some shows =>
        match loadShows sel shows with
        | .error e => .error (.valueError e)
        | .ok ls => .ok ⟨mainKeys, ls⟩

/-! ## Orchestrator (src/yt2pc.py `check_show` lines 229-249, `main`
lines 372-393) -/

/-- The environment of one run: the instant `datetime.now()` returns,
the external croniter `get_next` function, and the effect of `download`
for a given show id (which may raise).  Instants are abstracted as
integers. -/
structure Env where
  now : Int
  cronNext : String → Int → Int
  dl : String → Except String Unit

/-- `check_show` (lines 229-249).  The first component records whether
`download` was invoked (the due decision); the second is the returned
`now`, or the exception propagating out of `download`. -/
def check_show (env : Env) (show_config : LoadedShow) (last_process : Option Int)
    (selected_show : Option String) : Bool × Except String Int :=
  match selected_show, last_process with
  | some _, _ =>
    (true, match env.dl show_config.id with
      | .error e => .error e
      | .ok _ => .ok env.now)
  | none, none =>
    (true, match env.dl show_config.id with
      | .error e => .error e
      | .ok _ => .ok env.now)
  | none, some lp =>
    if env.now < env.cronNext show_config.cron lp then (false, .ok env.now)
    else
      (true, match env.dl show_config.id with
        | .error e => .error e
        | .ok _ => .ok env.now)

/-- Result of the `main` show loop: the final history dictionary, the
ids of the shows whose check completed without error (in order), and the
exception that aborted the loop, if any. -/
structure RunResult where
  hist : List (String × Int)
  checked : List String
  err : Option String
deriving DecidableEq, Repr

/-- The show loop of `main` (lines 386-392): check each show with its
stored last-process time, then store the returned time; an uncaught
exception aborts the loop, skipping every later show. -/
def mainLoop (env : Env) (sel : Option String) :
    List LoadedShow → List (String × Int) → RunResult
  | [], hist => ⟨hist, [], none⟩
  | s :: rest, hist =>
    match (check_show env s (dictGet hist s.id) sel).2 with
    | .error e => ⟨hist, [], some e⟩
    | .ok t => ⟨(mainLoop env sel rest (dictSet hist s.id t)).hist,
        s.id :: (mainLoop env sel rest (dictSet hist s.id t)).checked,
        (mainLoop env sel rest (dictSet hist s.id t)).err⟩

/-- Process exit outcomes.  Python `exit()` with no argument raises
`SystemExit(None)`, which terminates the process with status 0; an
uncaught exception terminates it with status 1; falling off the end of
the script gives status 0. -/
inductive Outcome
  | earlyExit (code : Nat)
  | finished (code : Nat)
  | crashed (code : Nat)
deriving DecidableEq, Repr

def Outcome.exitCode : Outcome → Nat
  | .earlyExit c => c
  | .finished c => c
  | .crashed c => c

/-- `main` (lines 372-393): a `ValueError` from the config loader is
caught and answered with a bare `exit()` (exit status 0); any other
exception (a missing `shows` key, or an error escaping the show loop)
crashes the process (status 1); otherwise the loop runs to completion
and the process ends with status 0.  The initial history dictionary is
the one loaded from the history file. -/
def main (raw : RawConfig) (sel : Option String) (env : Env)
    (hist0 : List (String × Int)) : Outcome :=
  match load_config raw sel with
  | .error (.valueError _) => .earlyExit 0
  | .error .keyError => .crashed 1
  | .ok cfg =>
    match (mainLoop env sel cfg.shows hist0).err with
    | some _ => .crashed 1
    | none => .finished 0

/-! ## Concrete instances used by counterexamples and witnesses -/

/-- A run where the download of show `s1` raises and every other
download succeeds; every show is due (`cronNext` constantly 0). -/
def cexEnvC1 : Env :=
  ⟨0, fun _ _ => 0, fun sid => if sid = "s1" then .error "boom" else .ok ()⟩

/-- A run at instant 10 where the next cron instant is always 20 (so a
show with a stored last-process is never due) and downloads succeed. -/
def cexEnvC2 : Env := ⟨10, fun _ _ => 20, fun _ => .ok ()⟩

/-- A run where every show is due and every download succeeds. -/
def cexEnvC9 : Env := ⟨0, fun _ _ => 0, fun _ => .ok ()⟩

/-- A configuration with one complete show `s1` and one show `s2` with no
keys at all. -/
def rawC8 : RawConfig :=
  RawConfig.map requiredMainKeys (some
    [("s1", ⟨requiredShowKeys, "cronv", ⟨2024, 1, 1, 0, 0, 0, 0, 0⟩⟩),
     ("s2", ⟨[], "cronv", ⟨2024, 1, 1, 0, 0, 0, 0, 0⟩⟩)])

/-! # Theorems -/

/-! ## Digits and whitespace -/

theorem charToDigit_digitToChar {d : Nat} (h : d < 10) :
    charToDigit (digitToChar d) = some d := by
  interval_cases d <;> rfl

theorem digitToChar_mem_digits (n : Nat) :
    digitToChar n ∈ ['0', '1', '2', '3', '4', '5', '6', '7', '8', '9'] := by
  unfold digitToChar
  split_ifs <;> simp

theorem digitToChar_isDigit (n : Nat) : (digitToChar n).isDigit = true := by
  unfold digitToChar
  split_ifs <;> decide

theorem isSpaceChar_eq_false_of_isDigit {c : Char} (h : c.isDigit = true) :
    isSpaceChar c = false := by
  by_contra hne
  have hs : isSpaceChar c = true := by
    cases hc : isSpaceChar c
    · exact absurd hc hne
    · rfl
  unfold isSpaceChar at hs
  simp only [Bool.or_eq_true, decide_eq_true_eq] at hs
  rcases hs with ((((rfl | rfl) | rfl) | rfl) | rfl) | rfl <;> simp [Char.isDigit] at h

theorem isSpaceChar_eq_false_of_isAlphanum {c : Char} (h : c.isAlphanum = true) :
    isSpaceChar c = false := by
  by_contra hne
  have hs : isSpaceChar c = true := by
    cases hc : isSpaceChar c
    · exact absurd hc hne
    · rfl
  unfold isSpaceChar at hs
  simp only [Bool.or_eq_true, decide_eq_true_eq] at hs
  rcases hs with ((((rfl | rfl) | rfl) | rfl) | rfl) | rfl <;>
    simp [Char.isAlphanum, Char.isAlpha, Char.isUpper, Char.isLower, Char.isDigit] at h

theorem ne_dot_of_isAlphanum {c : Char} (h : c.isAlphanum = true) : c ≠ '.' := by
  intro heq
  subst heq
  exact absurd h (by decide)

theorem ne_dash_of_isAlphanum {c : Char} (h : c.isAlphanum = true) : c ≠ '-' := by
  intro heq
  subst heq
  exact absurd h (by decide)

theorem ne_dot_of_isDigit {c : Char} (h : c.isDigit = true) : c ≠ '.' := by
  intro heq
  subst heq
  exact absurd h (by decide)

theorem ne_dash_of_isDigit {c : Char} (h : c.isDigit = true) : c ≠ '-' := by
  intro heq
  subst heq
  exact absurd h (by decide)

theorem takeWhile_append_of_all {p : Char → Bool} {xs : List Char} (ys : List Char)
    (h : ∀ x ∈ xs, p x = true) :
    (xs ++ ys).takeWhile p = xs ++ ys.takeWhile p := by
  induction xs with
  | nil => simp
  | cons a as ih =>
    have ha : p a = true := h a (by simp)
    simp only [List.cons_append, List.takeWhile_cons, ha, if_true]
    rw [ih (fun x hx => h x (by simp [hx]))]

theorem dropWhile_append_of_all {p : Char → Bool} {xs : List Char} (ys : List Char)
    (h : ∀ x ∈ xs, p x = true) :
    (xs ++ ys).dropWhile p = ys.dropWhile p := by
  induction xs with
  | nil => simp
  | cons a as ih =>
    have ha : p a = true := h a (by simp)
    simp only [List.cons_append, List.dropWhile_cons, ha, if_true]
    exact ih (fun x hx => h x (by simp [hx]))

theorem takeWhile_append_stop (p : Char → Bool) {xs : List Char} (y : Char)
    (ys : List Char) (hy : p y = false) :
    (xs ++ y :: ys).takeWhile p = xs.takeWhile p := by
  induction xs with
  | nil => simp [List.takeWhile_cons, hy]
  | cons a as ih =>
    simp only [List.cons_append, List.takeWhile_cons]
    cases p a <;> simp [ih]

theorem splitWords_single {v : List Char} (hne : v ≠ [])
    (hnw : ∀ c ∈ v, isSpaceChar c = false) : splitWords v = [v] := by
  cases v with
  | nil => exact absurd rfl hne
  | cons c rest =>
    have hc : isSpaceChar c = false := hnw c (by simp)
    rw [splitWords]
    simp only [hc, if_false, Bool.false_eq_true]
    have ht : rest.takeWhile (fun x => !isSpaceChar x) = rest := by
      rw [List.takeWhile_eq_self_iff]
      intro x hx
      simp [hnw x (by simp [hx])]
    have hd : rest.dropWhile (fun x => !isSpaceChar x) = [] := by
      rw [List.dropWhile_eq_nil_iff]
      intro x hx
      simp [hnw x (by simp [hx])]
    rw [ht, hd]
    simp [splitWords]

theorem splitWords_pair {w v : List Char} (hwne : w ≠ []) (hvne : v ≠ [])
    (hw : ∀ c ∈ w, isSpaceChar c = false) (hv : ∀ c ∈ v, isSpaceChar c = false) :
    splitWords (w ++ ' ' :: v) = [w, v] := by
  cases w with
  | nil => exact absurd rfl hwne
  | cons c rest =>
    have hc : isSpaceChar c = false := hw c (by simp)
    rw [List.cons_append, splitWords]
    simp only [hc, if_false, Bool.false_eq_true]
    have ht : (rest ++ ' ' :: v).takeWhile (fun x => !isSpaceChar x) = rest := by
      rw [takeWhile_append_of_all _ (fun x hx => by simp [hw x (by simp [hx])])]
      simp [List.takeWhile_cons, isSpaceChar]
    have hd : (rest ++ ' ' :: v).dropWhile (fun x => !isSpaceChar x) = ' ' :: v := by
      rw [dropWhile_append_of_all _ (fun x hx => by simp [hw x (by simp [hx])])]
      simp [List.dropWhile_cons, isSpaceChar]
    rw [ht, hd, splitWords]
    simp only [show isSpaceChar ' ' = true from rfl, if_true]
    rw [splitWords_single hvne hv]

/-! ## ISO-8601 round trip -/

theorem parse2_digits {a b : Nat} (ha : a < 10) (hb : b < 10) :
    parse2 (digitToChar a) (digitToChar b) = some (10 * a + b) := by
  unfold parse2
  rw [charToDigit_digitToChar ha, charToDigit_digitToChar hb]

theorem parse4_digits {a b c d : Nat} (ha : a < 10) (hb : b < 10) (hc : c < 10)
    (hd : d < 10) :
    parse4 (digitToChar a) (digitToChar b) (digitToChar c) (digitToChar d) =
      some (1000 * a + 100 * b + 10 * c + d) := by
  unfold parse4
  rw [charToDigit_digitToChar ha, charToDigit_digitToChar hb, charToDigit_digitToChar hc,
    charToDigit_digitToChar hd]

theorem parse6_digits {a b c d e f : Nat} (ha : a < 10) (hb : b < 10) (hc : c < 10)
    (hd : d < 10) (he : e < 10) (hf : f < 10) :
    parse6 (digitToChar a) (digitToChar b) (digitToChar c) (digitToChar d) (digitToChar e)
      (digitToChar f) = some (100000 * a + 10000 * b + 1000 * c + 100 * d + 10 * e + f) := by
  unfold parse6
  rw [charToDigit_digitToChar ha, charToDigit_digitToChar hb, charToDigit_digitToChar hc,
    charToDigit_digitToChar hd, charToDigit_digitToChar he, charToDigit_digitToChar hf]

theorem parseOffTail_pos (y mo d h mi s us : Nat) (off : Int) (h0 : 0 ≤ off)
    (hoff : off.natAbs ≤ 1439) :
    parseOffTail y mo d h mi s us
      ('+' :: pad2 (off.natAbs / 60) ++ ':' :: pad2 (off.natAbs % 60)) =
      some ⟨y, mo, d, h, mi, s, us, off⟩ := by
  simp only [pad2, List.cons_append, List.nil_append]
  rw [parseOffTail]
  rw [parse2_digits (by omega) (by omega), parse2_digits (by omega) (by omega)]
  simp only [eq_self_iff_true, if_true, Option.some.injEq, DT.mk.injEq, true_and, and_true]
  omega

theorem parseOffTail_neg (y mo d h mi s us : Nat) (off : Int) (h0 : ¬ 0 ≤ off)
    (hoff : off.natAbs ≤ 1439) :
    parseOffTail y mo d h mi s us
      ('-' :: pad2 (off.natAbs / 60) ++ ':' :: pad2 (off.natAbs % 60)) =
      some ⟨y, mo, d, h, mi, s, us, off⟩ := by
  simp only [pad2, List.cons_append, List.nil_append]
  rw [parseOffTail]
  rw [parse2_digits (by omega) (by omega), parse2_digits (by omega) (by omega)]
  have hne : ('-' : Char) = '+' ↔ False := by simp
  simp only [hne, if_false, eq_self_iff_true, if_true, Option.some.injEq, DT.mk.injEq,
    true_and, and_true]
  omega

theorem parseMicroTail_isoTail (y mo d h mi s : Nat) (t : DT)
    (hus : t.micro ≤ 999999) (hoff : t.offMin.natAbs ≤ 1439) :
    parseMicroTail y mo d h mi s (isoTail t) =
      some ⟨y, mo, d, h, mi, s, t.micro, t.offMin⟩ := by
  unfold isoTail
  by_cases hmu : t.micro = 0
  · simp only [hmu, eq_self_iff_true, if_true, List.nil_append]
    by_cases hsgn : 0 ≤ t.offMin
    · simp only [if_pos hsgn]
      rw [show parseMicroTail y mo d h mi s
          ('+' :: pad2 (t.offMin.natAbs / 60) ++ ':' :: pad2 (t.offMin.natAbs % 60)) =
          parseOffTail y mo d h mi s 0
          ('+' :: pad2 (t.offMin.natAbs / 60) ++ ':' :: pad2 (t.offMin.natAbs % 60)) from by
        simp [parseMicroTail, pad2, List.cons_append]]
      rw [parseOffTail_pos y mo d h mi s 0 t.offMin hsgn hoff]
    · simp only [if_neg hsgn]
      rw [show parseMicroTail y mo d h mi s
          ('-' :: pad2 (t.offMin.natAbs / 60) ++ ':' :: pad2 (t.offMin.natAbs % 60)) =
          parseOffTail y mo d h mi s 0
          ('-' :: pad2 (t.offMin.natAbs / 60) ++ ':' :: pad2 (t.offMin.natAbs % 60)) from by
        simp [parseMicroTail, pad2, List.cons_append]]
      rw [parseOffTail_neg y mo d h mi s 0 t.offMin hsgn hoff]
  · simp only [hmu, if_neg hmu, if_false]
    simp only [pad6, List.cons_append, List.nil_append]
    rw [parseMicroTail]
    rw [parse6_digits (by omega) (by omega) (by omega) (by omega) (by omega) (by omega)]
    have hval : 100000 * (t.micro / 100000) + 10000 * (t.micro / 10000 % 10) +
        1000 * (t.micro / 1000 % 10) + 100 * (t.micro / 100 % 10) +
        10 * (t.micro / 10 % 10) + t.micro % 10 = t.micro := by omega
    rw [hval]
    by_cases hsgn : 0 ≤ t.offMin
    · simp only [if_pos hsgn]
      exact parseOffTail_pos y mo d h mi s t.micro t.offMin hsgn hoff
    · simp only [if_neg hsgn]
      exact parseOffTail_neg y mo d h mi s t.micro t.offMin hsgn hoff

/-- Round trip at the heart of the history file: reading back an
ISO-8601 rendering recovers the datetime exactly, UTC offset included. -/
theorem parseIso_isoformat (t : DT) (h : t.wf) : parseIso (isoformat t) = some t := by
  obtain ⟨h1, h2, h3, h4, h5, h6, h7, h8, h9, h10, h11⟩ := h
  unfold isoformat
  simp only [pad4, pad2, List.cons_append, List.nil_append]
  rw [parseIso]
  rw [parse4_digits (by omega) (by omega) (by omega) (by omega),
    parse2_digits (by omega) (by omega), parse2_digits (by omega) (by omega),
    parse2_digits (by omega) (by omega), parse2_digits (by omega) (by omega),
    parse2_digits (by omega) (by omega)]
  have hy : 1000 * (t.year / 1000) + 100 * (t.year / 100 % 10) + 10 * (t.year / 10 % 10) +
      t.year % 10 = t.year := by omega
  have hmo : 10 * (t.month / 10) + t.month % 10 = t.month := by omega
  have hd : 10 * (t.day / 10) + t.day % 10 = t.day := by omega
  have hh : 10 * (t.hour / 10) + t.hour % 10 = t.hour := by omega
  have hmi : 10 * (t.minute / 10) + t.minute % 10 = t.minute := by omega
  have hs : 10 * (t.second / 10) + t.second % 10 = t.second := by omega
  rw [hy, hmo, hd, hh, hmi, hs]
  dsimp only
  rw [parseMicroTail_isoTail t.year t.month t.day t.hour t.minute t.second t h10 h11]

/-! ## Characters of renderings -/

theorem pad2_isDigit {n : Nat} (c : Char) (hc : c ∈ pad2 n) : c.isDigit = true := by
  simp only [pad2, List.mem_cons, List.not_mem_nil, or_false] at hc
  rcases hc with rfl | rfl <;> exact digitToChar_isDigit _

theorem pad4_isDigit {n : Nat} (c : Char) (hc : c ∈ pad4 n) : c.isDigit = true := by
  simp only [pad4, List.mem_cons, List.not_mem_nil, or_false] at hc
  rcases hc with rfl | rfl | rfl | rfl <;> exact digitToChar_isDigit _

theorem pad6_isDigit {n : Nat} (c : Char) (hc : c ∈ pad6 n) : c.isDigit = true := by
  simp only [pad6, List.mem_cons, List.not_mem_nil, or_false] at hc
  rcases hc with rfl | rfl | rfl | rfl | rfl | rfl <;> exact digitToChar_isDigit _

theorem formatYMD_isDigit {t : DT} (c : Char) (hc : c ∈ formatYMD t) :
    c.isDigit = true := by
  simp only [formatYMD, List.mem_append] at hc
  rcases hc with (h | h) | h
  · exact pad4_isDigit c h
  · exact pad2_isDigit c h
  · exact pad2_isDigit c h

theorem bne_dot_of_isAlphanum {c : Char} (h : c.isAlphanum = true) : (c != '.') = true := by
  simp only [bne_iff_ne, ne_eq]
  intro heq
  subst heq
  exact absurd h (by decide)

theorem bne_dash_of_isAlphanum {c : Char} (h : c.isAlphanum = true) :
    (c != '-') = true := by
  simp only [bne_iff_ne, ne_eq]
  intro heq
  subst heq
  exact absurd h (by decide)

theorem bne_dot_of_isDigit {c : Char} (h : c.isDigit = true) : (c != '.') = true := by
  simp only [bne_iff_ne, ne_eq]
  intro heq
  subst heq
  exact absurd h (by decide)

theorem bne_dash_of_isDigit {c : Char} (h : c.isDigit = true) : (c != '-') = true := by
  simp only [bne_iff_ne, ne_eq]
  intro heq
  subst heq
  exact absurd h (by decide)

/-! ## Filename key round trip (claim C10) -/

theorem feedEpisodeId_mp3FileName {show_id : List Char} (t : DT) (item_id : List Char)
    (halnum : ∀ c ∈ show_id, c.isAlphanum = true) :
    feedEpisodeId (mp3FileName show_id t item_id) =
      some (item_id.takeWhile (fun c => c != '.')) := by
  have hfn : mp3FileName show_id t item_id =
      show_id ++ '-' :: (formatYMD t ++ '-' :: (item_id ++ '.' :: ['m', 'p', '3'])) := by
    simp [mp3FileName, episodeBaseName, List.append_assoc]
  have hsid_dot : ∀ c ∈ show_id, (c != '.') = true :=
    fun c hc => bne_dot_of_isAlphanum (halnum c hc)
  have hsid_dash : ∀ c ∈ show_id, (c != '-') = true :=
    fun c hc => bne_dash_of_isAlphanum (halnum c hc)
  have hymd_dot : ∀ c ∈ formatYMD t, (c != '.') = true :=
    fun c hc => bne_dot_of_isDigit (formatYMD_isDigit c hc)
  have hymd_dash : ∀ c ∈ formatYMD t, (c != '-') = true :=
    fun c hc => bne_dash_of_isDigit (formatYMD_isDigit c hc)
  have htake : (mp3FileName show_id t item_id).takeWhile (fun c => c != '.') =
      show_id ++ '-' :: (formatYMD t ++ '-' :: item_id.takeWhile (fun c => c != '.')) := by
    rw [hfn]
    rw [takeWhile_append_of_all _ hsid_dot]
    rw [List.takeWhile_cons]
    simp only [show (('-' : Char) != '.') = true from rfl, if_true]
    rw [takeWhile_append_of_all _ hymd_dot]
    rw [List.takeWhile_cons]
    simp only [show (('-' : Char) != '.') = true from rfl, if_true]
    rw [takeWhile_append_stop (fun c => c != '.') '.' ['m', 'p', '3'] rfl]
  have hdrop1 :
      (show_id ++ '-' :: (formatYMD t ++ '-' ::
        item_id.takeWhile (fun c => c != '.'))).dropWhile (fun c => c != '-') =
      '-' :: (formatYMD t ++ '-' :: item_id.takeWhile (fun c => c != '.')) := by
    rw [dropWhile_append_of_all _ hsid_dash]
    rw [List.dropWhile_cons]
    simp
  have hdrop2 :
      (formatYMD t ++ '-' :: item_id.takeWhile (fun c => c != '.')).dropWhile
        (fun c => c != '-') = '-' :: item_id.takeWhile (fun c => c != '.') := by
    rw [dropWhile_append_of_all _ hymd_dash]
    rw [List.dropWhile_cons]
    simp
  unfold feedEpisodeId
  rw [htake, hdrop1]
  simp only [splitAfterDash, eq_self_iff_true, if_true]
  rw [hdrop2]
  simp only [splitAfterDash, eq_self_iff_true, if_true]

/-- C10: for every alphanumeric show id, every date, and every episode id
containing no dot, parsing the generated file name at feed publish time
(strip from the first dot, then split on dashes at most twice and take the
third piece) recovers exactly the embedded episode id, even when the
episode id contains dashes; an episode id containing a dot is recovered
truncated at its first dot. -/
theorem claim_C10_filename_roundtrip (show_id : List Char) (t : DT) (item_id : List Char)
    (halnum : ∀ c ∈ show_id, c.isAlphanum = true) :
    feedEpisodeId (mp3FileName show_id t item_id) =
      some (item_id.takeWhile (fun c => c != '.')) ∧
    ('.' ∉ item_id → feedEpisodeId (mp3FileName show_id t item_id) = some item_id) := by
  have hmain := feedEpisodeId_mp3FileName t item_id halnum
  refine ⟨hmain, fun hdot => ?_⟩
  rw [hmain]
  have : item_id.takeWhile (fun c => c != '.') = item_id := by
    rw [List.takeWhile_eq_self_iff]
    intro x hx
    simp only [bne_iff_ne, ne_eq]
    intro heq
    exact hdot (heq ▸ hx)
  rw [this]

/-- Witness for C10 at a concrete input: show id `show1`, a concrete
date, and the dash-carrying dot-free episode id `ab-cd`. -/
theorem claim_C10_filename_roundtrip_witness :
    feedEpisodeId (mp3FileName ("show1").data ⟨2024, 1, 2, 3, 4, 5, 0, 0⟩ ("ab-cd").data) =
      some (("ab-cd").data.takeWhile (fun c => c != '.')) ∧
    ('.' ∉ ("ab-cd").data →
      feedEpisodeId (mp3FileName ("show1").data ⟨2024, 1, 2, 3, 4, 5, 0, 0⟩ ("ab-cd").data) =
        some (("ab-cd").data)) :=
  claim_C10_filename_roundtrip ("show1").data ⟨2024, 1, 2, 3, 4, 5, 0, 0⟩ ("ab-cd").data
    (by decide)

/-! ## Episode selector (claim C4) -/

theorem containsSub_iff_isInfix (needle hay : List Char) :
    containsSub needle hay = true ↔ needle <:+: hay := by
  simp only [containsSub, List.any_eq_true, List.mem_tails, List.isPrefixOf_iff_prefix]
  rw [List.infix_iff_prefix_suffix]
  exact ⟨fun ⟨t, h1, h2⟩ => ⟨t, h2, h1⟩, fun ⟨t, h1, h2⟩ => ⟨t, h2, h1⟩⟩

theorem usefulLoop_none (l : List FlatEpisode) :
    usefulLoop none l = l.map (fun e => e.url) := by
  induction l with
  | nil => rfl
  | cons e rest ih => simp [usefulLoop, ih]

theorem usefulLoop_some (fl : List (List Char)) (l : List FlatEpisode) :
    usefulLoop (some fl) l =
      (l.filter (fun e =>
        fl.any (fun f => containsSub f (e.title.map Char.toLower)))).map
        (fun e => e.url) := by
  induction l with
  | nil => rfl
  | cons e rest ih =>
    rw [usefulLoop]
    cases hcond : fl.any (fun f => containsSub f (e.title.map Char.toLower)) with
    | true => simp [List.filter_cons, hcond, ih]
    | false => simp [List.filter_cons, hcond, ih]

/-- C4: with no filters the Episode Selector retains every episode's URL;
with filters it retains exactly the episodes whose lowercased title
contains at least one lowercased filter keyword as a substring (OR across
filters), preserving listing order; in both cases the result is the last
10 entries of the retained list.  The last conjunct ties the code's
substring test to the substring relation. -/
theorem claim_C4_episode_selector (eps : List FlatEpisode) :
    selectUseful eps none = takeLast 10 (eps.map (fun e => e.url)) ∧
    (∀ fl, selectUseful eps (some fl) =
      takeLast 10 ((eps.filter (fun e =>
        decide (∃ f ∈ fl, (f.map Char.toLower) <:+: (e.title.map Char.toLower)))).map
        (fun e => e.url))) ∧
    (∀ needle hay : List Char, containsSub needle hay = true ↔ needle <:+: hay) := by
  refine ⟨?_, ?_, containsSub_iff_isInfix⟩
  · simp only [selectUseful, Option.map_none']
    rw [usefulLoop_none]
  · intro fl
    simp only [selectUseful, Option.map_some']
    rw [usefulLoop_some]
    have hfilter : eps.filter (fun e =>
        (fl.map (List.map Char.toLower)).any
          (fun f => containsSub f (e.title.map Char.toLower))) =
        eps.filter (fun e =>
          decide (∃ f ∈ fl, (f.map Char.toLower) <:+: (e.title.map Char.toLower))) := by
      apply List.filter_congr
      intro e _
      rw [Bool.eq_iff_iff]
      simp only [List.any_map, List.any_eq_true, Function.comp, decide_eq_true_eq]
      constructor
      · rintro ⟨f, hf, hsub⟩
        exact ⟨f, hf, (containsSub_iff_isInfix _ _).1 hsub⟩
      · rintro ⟨f, hf, hsub⟩
        exact ⟨f, hf, (containsSub_iff_isInfix _ _).2 hsub⟩
    rw [hfilter]

/-! ## Audio format resolution (claim C5) -/

theorem find?_first_spec {α : Type} (p : α → Bool) :
    ∀ (l : List α) (b : α), l.find? p = some b →
      ∃ k, ∃ hk : k < l.length, l.get ⟨k, hk⟩ = b ∧ p b = true ∧
        ∀ j, ∀ hj : j < k, p (l.get ⟨j, Nat.lt_trans hj hk⟩) = false := by
  intro l
  induction l with
  | nil =>
    intro b h
    simp [List.find?] at h
  | cons a as ih =>
    intro b h
    cases hpa : p a with
    | true =>
      rw [List.find?_cons_of_pos _ hpa] at h
      injection h with hba
      subst hba
      exact ⟨0, by simp, rfl, hpa, fun j hj => absurd hj (Nat.not_lt_zero j)⟩
    | false =>
      rw [List.find?_cons_of_neg _ (by simp [hpa])] at h
      obtain ⟨k, hk, hget, hpb, hfirst⟩ := ih b h
      refine ⟨k + 1, by simpa using Nat.succ_lt_succ hk, ?_, hpb, ?_⟩
      · simpa using hget
      · intro j hj
        cases j with
        | zero => simpa using hpa
        | succ j0 =>
          have hj0 : j0 < k := Nat.lt_of_succ_lt_succ hj
          simpa using hfirst j0 hj0

theorem resolveFormats_ok_spec :
    ∀ (batch : List (List String)) (chosen : List String),
      resolveFormats batch = .ok chosen →
      chosen.length = batch.length ∧
      ∀ i, ∀ hi : i < batch.length, ∀ hc : i < chosen.length,
        ∃ k, ∃ hk : k < FORMATS.length,
          chosen.get ⟨i, hc⟩ = FORMATS.get ⟨k, hk⟩ ∧
          FORMATS.get ⟨k, hk⟩ ∈ batch.get ⟨i, hi⟩ ∧
          ∀ j, ∀ hj : j < k, FORMATS.get ⟨j, Nat.lt_trans hj hk⟩ ∉ batch.get ⟨i, hi⟩ := by
  intro batch
  induction batch with
  | nil =>
    intro chosen h
    rw [resolveFormats] at h
    injection h with hc
    subst hc
    exact ⟨rfl, fun i hi => absurd hi (by simp)⟩
  | cons fmts rest ih =>
    intro chosen h
    rw [resolveFormats] at h
    cases hbf : bestFormat fmts with
    | none =>
      rw [hbf] at h
      simp at h
    | some b =>
      rw [hbf] at h
      cases hrec : resolveFormats rest with
      | error e =>
        rw [hrec] at h
        simp at h
      | ok bs =>
        rw [hrec] at h
        injection h with h2
        subst h2
        obtain ⟨hlen, hspec⟩ := ih bs hrec
        refine ⟨by simpa using hlen, ?_⟩
        intro i hi hc
        cases i with
        | zero =>
          obtain ⟨k, hk, hget, hpb, hfirst⟩ := find?_first_spec _ FORMATS b hbf
          refine ⟨k, hk, ?_, ?_, ?_⟩
          · simpa using hget.symm
          · rw [hget]
            show b ∈ fmts
            exact List.elem_iff.1 hpb
          · intro j hj
            have hfalse := hfirst j hj
            simp only at hfalse
            show FORMATS.get ⟨j, Nat.lt_trans hj hk⟩ ∉ fmts
            intro hmem
            have htrue : fmts.contains (FORMATS.get ⟨j, Nat.lt_trans hj hk⟩) = true :=
              List.elem_iff.2 hmem
            rw [hfalse] at htrue
            exact absurd htrue (by decide)
        | succ i0 =>
          have hi0 : i0 < rest.length := by simpa using hi
          have hc0 : i0 < bs.length := by simpa using hc
          obtain ⟨k, hk, hget, hmem, hfirst⟩ := hspec i0 hi0 hc0
          exact ⟨k, hk, by simpa using hget, by simpa using hmem,
            fun j hj => by simpa using hfirst j hj⟩

theorem resolveFormats_error_of_missing :
    ∀ (batch : List (List String)),
      (∃ fmts ∈ batch, ∀ f ∈ FORMATS, f ∉ fmts) →
      ∃ e, resolveFormats batch = .error e := by
  intro batch
  induction batch with
  | nil =>
    rintro ⟨fmts, hmem, _⟩
    simp at hmem
  | cons hd rest ih =>
    rintro ⟨fmts, hmem, hnone⟩
    rcases List.mem_cons.1 hmem with rfl | hmem0
    · have hbf : bestFormat fmts = none := by
        rw [bestFormat, List.find?_eq_none]
        intro f hf
        simp only [Bool.not_eq_true]
        cases hcon : fmts.contains f with
        | false => rfl
        | true => exact absurd (List.elem_iff.1 hcon) (hnone f hf)
      refine ⟨"Best format not found", ?_⟩
      rw [resolveFormats, hbf]
    · cases hbf : bestFormat hd with
      | none =>
        refine ⟨"Best format not found", ?_⟩
        rw [resolveFormats, hbf]
      | some b =>
        obtain ⟨e, he⟩ := ih ⟨fmts, hmem0, hnone⟩
        refine ⟨e, ?_⟩
        rw [resolveFormats, hbf, he]

/-- C5: for every batch of resolved episode metadata, a successful
resolution chooses for each episode the first entry of the fixed
preference-ordered `FORMATS` list present among that episode's reported
formats; and if some episode of the batch has none of the preferred
formats, resolution of the entire batch fails with an error (no episode
of the batch is returned). -/
theorem claim_C5_format_resolution (batch : List (List String)) :
    (∀ chosen, resolveFormats batch = .ok chosen →
      chosen.length = batch.length ∧
      ∀ i, ∀ hi : i < batch.length, ∀ hc : i < chosen.length,
        ∃ k, ∃ hk : k < FORMATS.length,
          chosen.get ⟨i, hc⟩ = FORMATS.get ⟨k, hk⟩ ∧
          FORMATS.get ⟨k, hk⟩ ∈ batch.get ⟨i, hi⟩ ∧
          ∀ j, ∀ hj : j < k, FORMATS.get ⟨j, Nat.lt_trans hj hk⟩ ∉ batch.get ⟨i, hi⟩) ∧
    ((∃ fmts ∈ batch, ∀ f ∈ FORMATS, f ∉ fmts) → ∃ e, resolveFormats batch = .error e) :=
  ⟨fun chosen h => resolveFormats_ok_spec batch chosen h,
   fun hmiss => resolveFormats_error_of_missing batch hmiss⟩

/-- Witness for C5: a two-episode batch resolving to `140` then `139`,
and a one-episode batch with no known format aborting with an error. -/
theorem claim_C5_format_resolution_witness :
    (["140", "139"] : List String).length =
      ([["251", "140"], ["139"]] : List (List String)).length ∧
    ∃ e, resolveFormats [["opus"]] = .error e :=
  ⟨((claim_C5_format_resolution [["251", "140"], ["139"]]).1 ["140", "139"] (by rfl)).1,
   (claim_C5_format_resolution [["opus"]]).2 ⟨["opus"], by simp, by decide⟩⟩

/-! ## Dedup filter (claims C6) -/

theorem alreadyDownloaded_any_iff (show_id : List Char) (dir_files : List (List Char))
    (base : List Char) :
    ((alreadyDownloaded show_id dir_files).any (fun x => base.isPrefixOf x) = true) ↔
      ∃ f ∈ dir_files, show_id <+: f ∧ (".mp3").data <:+ f ∧
        show_id.length + 4 ≤ f.length ∧ base <+: f := by
  simp only [alreadyDownloaded, globShowMp3, List.any_eq_true, List.mem_filter,
    Bool.and_eq_true, decide_eq_true_eq, List.isPrefixOf_iff_prefix,
    List.isSuffixOf_iff_suffix]
  constructor
  · rintro ⟨f, ⟨hf, ⟨⟨hp, hs⟩, hl⟩⟩, hb⟩
    exact ⟨f, hf, hp, hs, hl, hb⟩
  · rintro ⟨f, hf, hp, hs, hl, hb⟩
    exact ⟨f, ⟨hf, ⟨⟨hp, hs⟩, hl⟩⟩, hb⟩

/-- C6 counterexample: a leftover intermediate file (no `.mp3` suffix)
whose name equals the dedup prefix is not matched by the `show_id*.mp3`
glob, so the episode is downloaded again even though an existing file
name in the output directory starts with the computed prefix — the claim
says it would be skipped. -/
theorem claim_C6_counterexample :
    (episodeBaseName ("show1").data ⟨2024, 1, 5, 0, 0, 0, 0, 0⟩ ("abc123").data).isPrefixOf
      (("show1-20240105-abc123").data) = true ∧
    DT.lt ⟨2024, 1, 5, 0, 0, 0, 0, 0⟩ ⟨2024, 1, 1, 0, 0, 0, 0, 0⟩ = false ∧
    downloadAction ⟨2024, 1, 1, 0, 0, 0, 0, 0⟩ ("show1").data
      [("show1-20240105-abc123").data] ⟨2024, 1, 5, 0, 0, 0, 0, 0⟩ ("abc123").data =
      EpAction.downloaded := by
  refine ⟨by decide, by decide, ?_⟩
  decide

/-- C6 (amended): an episode is skipped exactly when its publish date is
strictly before the start timestamp, or else when some existing file name
matching the `show_id*.mp3` glob (starting with the show id, ending in
`.mp3`) starts with the `show_id-YYYYMMDD-episode_id` prefix; otherwise,
and only then, it is downloaded. -/
theorem claim_C6_dedup_filter (start_timestamp : DT) (show_id : List Char)
    (dir_files : List (List Char)) (item_date : DT) (item_id : List Char) :
    (downloadAction start_timestamp show_id dir_files item_date item_id =
        EpAction.skippedOld ↔ DT.lt item_date start_timestamp = true) ∧
    (downloadAction start_timestamp show_id dir_files item_date item_id =
        EpAction.skippedDup ↔
      DT.lt item_date start_timestamp = false ∧
      ∃ f ∈ dir_files, show_id <+: f ∧ (".mp3").data <:+ f ∧
        show_id.length + 4 ≤ f.length ∧
        episodeBaseName show_id item_date item_id <+: f) ∧
    (downloadAction start_timestamp show_id dir_files item_date item_id =
        EpAction.downloaded ↔
      DT.lt item_date start_timestamp = false ∧
      ¬ ∃ f ∈ dir_files, show_id <+: f ∧ (".mp3").data <:+ f ∧
        show_id.length + 4 ≤ f.length ∧
        episodeBaseName show_id item_date item_id <+: f) := by
  have hiff := alreadyDownloaded_any_iff show_id dir_files
    (episodeBaseName show_id item_date item_id)
  unfold downloadAction
  split_ifs with h1 h2
  · refine ⟨⟨fun _ => h1, fun _ => rfl⟩, ?_, ?_⟩
    · refine ⟨fun h => absurd h (by decide), ?_⟩
      rintro ⟨hf, -⟩
      rw [h1] at hf
      exact absurd hf (by decide)
    · refine ⟨fun h => absurd h (by decide), ?_⟩
      rintro ⟨hf, -⟩
      rw [h1] at hf
      exact absurd hf (by decide)
  · have h1f : DT.lt item_date start_timestamp = false := by
      cases hv : DT.lt item_date start_timestamp
      · rfl
      · exact absurd hv h1
    refine ⟨?_, ?_, ?_⟩
    · exact ⟨fun h => absurd h (by decide), fun hl => absurd hl h1⟩
    · exact ⟨fun _ => ⟨h1f, hiff.1 h2⟩, fun _ => rfl⟩
    · refine ⟨fun h => absurd h (by decide), ?_⟩
      rintro ⟨-, hnot⟩
      exact absurd (hiff.1 h2) hnot
  · have h1f : DT.lt item_date start_timestamp = false := by
      cases hv : DT.lt item_date start_timestamp
      · rfl
      · exact absurd hv h1
    refine ⟨?_, ?_, ?_⟩
    · exact ⟨fun h => absurd h (by decide), fun hl => absurd hl h1⟩
    · refine ⟨fun h => absurd h (by decide), ?_⟩
      rintro ⟨-, hex⟩
      exact absurd (hiff.2 hex) h2
    · exact ⟨fun _ => ⟨h1f, fun hex => h2 (hiff.2 hex)⟩, fun _ => rfl⟩

/-! ## Dict lemmas -/

theorem dictGet_dictSet_self {K V : Type} [DecidableEq K] (d : List (K × V)) (k : K)
    (v : V) : dictGet (dictSet d k v) k = some v := by
  induction d with
  | nil => simp [dictSet, dictGet]
  | cons e rest ih =>
    obtain ⟨k0, v0⟩ := e
    by_cases hk : k0 = k
    · subst hk
      simp [dictSet, dictGet]
    · simp [dictSet, dictGet, hk, ih]

theorem dictGet_dictSet_ne {K V : Type} [DecidableEq K] (d : List (K × V)) {k k' : K}
    (v : V) (hne : k' ≠ k) : dictGet (dictSet d k v) k' = dictGet d k' := by
  induction d with
  | nil =>
    simp only [dictSet, dictGet]
    rw [if_neg (fun h => hne h.symm)]
  | cons e rest ih =>
    obtain ⟨k0, v0⟩ := e
    by_cases hk : k0 = k
    · subst hk
      simp only [dictSet, eq_self_iff_true, if_true, dictGet]
      rw [if_neg (fun h => hne h.symm), if_neg (fun h => hne h.symm)]
    · simp only [dictSet, hk, if_false, dictGet]
      by_cases hk' : k0 = k'
      · subst hk'
        simp
      · simp [hk', ih]

theorem mem_dictSet_self {K V : Type} [DecidableEq K] (d : List (K × V)) (k : K)
    (v : V) : (k, v) ∈ dictSet d k v := by
  induction d with
  | nil => simp [dictSet]
  | cons e rest ih =>
    obtain ⟨k0, v0⟩ := e
    by_cases hk : k0 = k
    · subst hk
      simp [dictSet]
    · simp [dictSet, hk, ih]

theorem mem_dictSet_elim {K V : Type} [DecidableEq K] {d : List (K × V)} {k : K}
    {v : V} {e : K × V} (h : e ∈ dictSet d k v) : e = (k, v) ∨ e ∈ d := by
  induction d with
  | nil =>
    simp [dictSet] at h
    exact Or.inl h
  | cons e0 rest ih =>
    obtain ⟨k0, v0⟩ := e0
    by_cases hk : k0 = k
    · subst hk
      simp only [dictSet, eq_self_iff_true, if_true] at h
      rcases List.mem_cons.1 h with rfl | h2
      · exact Or.inl rfl
      · exact Or.inr (List.mem_cons.2 (Or.inr h2))
    · simp only [dictSet, hk, if_false] at h
      rcases List.mem_cons.1 h with rfl | h2
      · exact Or.inr (List.mem_cons.2 (Or.inl rfl))
      · rcases ih h2 with h3 | h3
        · exact Or.inl h3
        · exact Or.inr (List.mem_cons.2 (Or.inr h3))

theorem dictSet_keys_sub {K V : Type} [DecidableEq K] {d : List (K × V)} {k : K}
    {v : V} {x : K} (h : x ∈ (dictSet d k v).map Prod.fst) :
    x ∈ d.map Prod.fst ∨ x = k := by
  simp only [List.mem_map] at h
  obtain ⟨e, he, hx⟩ := h
  rcases mem_dictSet_elim he with rfl | h2
  · right
    exact hx.symm
  · exact Or.inl (List.mem_map.2 ⟨e, h2, hx⟩)

theorem dictSet_keys_nodup {K V : Type} [DecidableEq K] {d : List (K × V)} (k : K)
    (v : V) (hd : (d.map Prod.fst).Nodup) :
    ((dictSet d k v).map Prod.fst).Nodup := by
  induction d with
  | nil => simp [dictSet]
  | cons e rest ih =>
    obtain ⟨k0, v0⟩ := e
    simp only [List.map_cons, List.nodup_cons] at hd
    obtain ⟨hk0, hrest⟩ := hd
    by_cases hk : k0 = k
    · subst hk
      simp only [dictSet, eq_self_iff_true, if_true, List.map_cons, List.nodup_cons]
      exact ⟨hk0, hrest⟩
    · simp only [dictSet, hk, if_false, List.map_cons, List.nodup_cons]
      refine ⟨?_, ih hrest⟩
      intro hmem
      rcases dictSet_keys_sub hmem with h2 | h2
      · exact hk0 h2
      · exact hk h2

theorem dictGet_foldl_of_not_mem {K V : Type} [DecidableEq K] (k : K) :
    ∀ (es : List (K × V)) (d0 : List (K × V)), (∀ e ∈ es, e.1 ≠ k) →
      dictGet (es.foldl (fun d e => dictSet d e.1 e.2) d0) k = dictGet d0 k := by
  intro es
  induction es with
  | nil => intro d0 _; rfl
  | cons e rest ih =>
    intro d0 h
    rw [List.foldl_cons]
    rw [ih (dictSet d0 e.1 e.2) (fun x hx => h x (List.mem_cons.2 (Or.inr hx)))]
    exact dictGet_dictSet_ne d0 e.2 (fun heq => h e (List.mem_cons.2 (Or.inl rfl)) heq.symm)

theorem dictGet_foldl_mem {K V : Type} [DecidableEq K] {k : K} {v : V} :
    ∀ (es : List (K × V)) (d0 : List (K × V)), ((es.map Prod.fst).Nodup) →
      (k, v) ∈ es → dictGet (es.foldl (fun d e => dictSet d e.1 e.2) d0) k = some v := by
  intro es
  induction es with
  | nil =>
    intro d0 _ hmem
    simp at hmem
  | cons e rest ih =>
    intro d0 hnd hmem
    simp only [List.map_cons, List.nodup_cons] at hnd
    obtain ⟨hk0, hrest⟩ := hnd
    rw [List.foldl_cons]
    rcases List.mem_cons.1 hmem with rfl | h2
    · rw [dictGet_foldl_of_not_mem k rest (dictSet d0 (k, v).1 (k, v).2) ?_]
      · exact dictGet_dictSet_self d0 k v
      · intro x hx heq
        exact hk0 (heq ▸ List.mem_map.2 ⟨x, hx, rfl⟩)
    · exact ih (dictSet d0 e.1 e.2) hrest h2

/-! ## History serialisation lemmas -/

theorem isoTail_not_space (t : DT) : ∀ c ∈ isoTail t, isSpaceChar c = false := by
  intro c hc
  unfold isoTail at hc
  rcases List.mem_append.1 hc with h | h
  · rcases List.mem_append.1 h with h1 | h1
    · by_cases hmu : t.micro = 0
      · rw [if_pos hmu] at h1
        simp at h1
      · rw [if_neg hmu] at h1
        rcases List.mem_cons.1 h1 with rfl | h2
        · rfl
        · exact isSpaceChar_eq_false_of_isDigit (pad6_isDigit c h2)
    · rcases List.mem_cons.1 h1 with heq | h2
      · subst heq
        by_cases hsgn : 0 ≤ t.offMin
        · rw [if_pos hsgn]
          rfl
        · rw [if_neg hsgn]
          rfl
      · exact isSpaceChar_eq_false_of_isDigit (pad2_isDigit c h2)
  · rcases List.mem_cons.1 h with rfl | h2
    · rfl
    · exact isSpaceChar_eq_false_of_isDigit (pad2_isDigit c h2)

theorem isoformat_not_space (t : DT) : ∀ c ∈ isoformat t, isSpaceChar c = false := by
  intro c hc
  unfold isoformat at hc
  rcases List.mem_append.1 hc with h | h
  case inr => exact isoTail_not_space t c h
  rcases List.mem_append.1 h with h | h
  case inr =>
    rcases List.mem_cons.1 h with rfl | h2
    · rfl
    · exact isSpaceChar_eq_false_of_isDigit (pad2_isDigit c h2)
  rcases List.mem_append.1 h with h | h
  case inr =>
    rcases List.mem_cons.1 h with rfl | h2
    · rfl
    · exact isSpaceChar_eq_false_of_isDigit (pad2_isDigit c h2)
  rcases List.mem_append.1 h with h | h
  case inr =>
    rcases List.mem_cons.1 h with rfl | h2
    · rfl
    · exact isSpaceChar_eq_false_of_isDigit (pad2_isDigit c h2)
  rcases List.mem_append.1 h with h | h
  case inr =>
    rcases List.mem_cons.1 h with rfl | h2
    · rfl
    · exact isSpaceChar_eq_false_of_isDigit (pad2_isDigit c h2)
  rcases List.mem_append.1 h with h | h
  case inr =>
    rcases List.mem_cons.1 h with rfl | h2
    · rfl
    · exact isSpaceChar_eq_false_of_isDigit (pad2_isDigit c h2)
  exact isSpaceChar_eq_false_of_isDigit (pad4_isDigit c h)

theorem isoformat_ends_digit (t : DT) :
    ∃ front, isoformat t = front ++ [digitToChar (t.offMin.natAbs % 60 % 10)] := by
  refine ⟨pad4 t.year ++ '-' :: pad2 t.month ++ '-' :: pad2 t.day ++ 'T' :: pad2 t.hour ++
    ':' :: pad2 t.minute ++ ':' :: pad2 t.second ++
    (if t.micro = 0 then [] else '.' :: pad6 t.micro) ++
    (if 0 ≤ t.offMin then '+' else '-') :: pad2 (t.offMin.natAbs / 60) ++
    [':', digitToChar (t.offMin.natAbs % 60 / 10)], ?_⟩
  simp [isoformat, isoTail, pad2, List.append_assoc]

theorem isoformat_ne_nil (t : DT) : isoformat t ≠ [] := by
  simp [isoformat, pad4]

theorem stripChars_sandwich {c d : Char} (mid : List Char) (hc : isSpaceChar c = false)
    (hd : isSpaceChar d = false) :
    stripChars (c :: (mid ++ [d])) = c :: (mid ++ [d]) := by
  unfold stripChars lstripChars
  rw [List.dropWhile_cons]
  simp only [hc, Bool.false_eq_true, if_false]
  rw [show (c :: (mid ++ [d])).reverse = d :: (mid.reverse ++ [c]) from by
    simp [List.reverse_cons, List.reverse_append]]
  rw [List.dropWhile_cons]
  simp only [hd, Bool.false_eq_true, if_false]
  simp [List.reverse_cons, List.reverse_append]

theorem parseHistoryLine_serializeLine (e : List Char × DT) (hne : e.1 ≠ [])
    (halnum : ∀ c ∈ e.1, c.isAlphanum = true) (hwf : e.2.wf) :
    parseHistoryLine (serializeLine e) = some e := by
  obtain ⟨sid, t⟩ := e
  simp only at hne halnum hwf
  cases sid with
  | nil => exact absurd rfl hne
  | cons c0 sid0 =>
    obtain ⟨front, hfront⟩ := isoformat_ends_digit t
    have hline : serializeLine (c0 :: sid0, t) =
        c0 :: ((sid0 ++ ' ' :: front) ++ [digitToChar (t.offMin.natAbs % 60 % 10)]) := by
      simp only [serializeLine]
      rw [hfront]
      simp [List.append_assoc]
    unfold parseHistoryLine
    rw [hline]
    rw [stripChars_sandwich _ (isSpaceChar_eq_false_of_isAlphanum (halnum c0 (by simp)))
      (isSpaceChar_eq_false_of_isDigit (digitToChar_isDigit _))]
    rw [show c0 :: ((sid0 ++ ' ' :: front) ++ [digitToChar (t.offMin.natAbs % 60 % 10)]) =
        (c0 :: sid0) ++ ' ' :: isoformat t from by
      rw [hfront]
      simp [List.append_assoc]]
    rw [splitWords_pair (by simp) (isoformat_ne_nil t)
      (fun c hc => isSpaceChar_eq_false_of_isAlphanum (halnum c hc))
      (isoformat_not_space t)]
    simp [parseIso_isoformat t hwf]

theorem parseHistoryLines_map (es : List (List Char × DT))
    (h : ∀ e ∈ es, parseHistoryLine (serializeLine e) = some e) :
    parseHistoryLines (es.map serializeLine) = some es := by
  induction es with
  | nil => rfl
  | cons e rest ih =>
    rw [List.map_cons, parseHistoryLines]
    rw [h e (by simp)]
    rw [ih (fun x hx => h x (by simp [hx]))]

theorem temp_path_ne (p : List Char) : p ++ (".temp").data ≠ p := by
  intro heq
  have := congrArg List.length heq
  simp at this

/-! ## History round trip (claim C7) -/

/-- C7: for every show id and timezone-aware timestamp, `set` followed
by a fresh load from the same file yields `get` equal to the timestamp,
UTC offset included; and the save behind `set` rewrites the full history
file by writing a temporary file and renaming it over the original: the
history path holds the full serialisation, the temporary path is gone,
and every other path is untouched. -/
theorem claim_C7_history_roundtrip (h : History) (show_id : List Char) (t : DT)
    (fs : FSMap) (hid : show_id ≠ [])
    (halnum : ∀ c ∈ show_id, c.isAlphanum = true) (hwf : t.wf)
    (hdata : ∀ e ∈ h.data, e.1 ≠ [] ∧ (∀ c ∈ e.1, c.isAlphanum = true) ∧ e.2.wf)
    (hnodup : (h.data.map Prod.fst).Nodup) :
    ((History.set h show_id t fs).2 h.history_file =
      some (History.saveLines (History.set h show_id t fs).1)) ∧
    ((History.set h show_id t fs).2 (h.history_file ++ (".temp").data) = none) ∧
    (∀ q, q ≠ h.history_file → q ≠ h.history_file ++ (".temp").data →
      (History.set h show_id t fs).2 q = fs q) ∧
    ∃ h3, History.load h.history_file (History.set h show_id t fs).2 = some h3 ∧
      h3.get show_id = some t := by
  have hfile : (History.set h show_id t fs).2 h.history_file =
      some (History.saveLines (History.set h show_id t fs).1) := by
    simp only [History.set, History.save, fsRename, fsWrite, eq_self_iff_true, if_true]
  have htmp : (History.set h show_id t fs).2 (h.history_file ++ (".temp").data) = none := by
    simp only [History.set, History.save, fsRename, fsWrite, eq_self_iff_true, if_true]
    rw [if_neg (temp_path_ne h.history_file)]
  have hother : ∀ q, q ≠ h.history_file → q ≠ h.history_file ++ (".temp").data →
      (History.set h show_id t fs).2 q = fs q := by
    intro q hq1 hq2
    simp only [History.set, History.save, fsRename, fsWrite]
    rw [if_neg hq1, if_neg hq2, if_neg hq2]
  have hlines : parseHistoryLines (History.saveLines (History.set h show_id t fs).1) =
      some ((dictSet h.data show_id t).mergeSort (fun a b => lexLe a.1 b.1)) := by
    apply parseHistoryLines_map
    intro e he
    have hmem : e ∈ dictSet h.data show_id t :=
      (List.mergeSort_perm (dictSet h.data show_id t) (fun a b => lexLe a.1 b.1)).mem_iff.1
        he
    rcases mem_dictSet_elim hmem with rfl | hmem2
    · exact parseHistoryLine_serializeLine (show_id, t) hid halnum hwf
    · obtain ⟨h1, h2, h3⟩ := hdata e hmem2
      exact parseHistoryLine_serializeLine e h1 h2 h3
  have hload : History.load h.history_file (History.set h show_id t fs).2 =
      some ⟨h.history_file,
        (((dictSet h.data show_id t).mergeSort (fun a b => lexLe a.1 b.1)).foldl
          (fun d e => dictSet d e.1 e.2) [])⟩ := by
    simp only [History.load, hfile, hlines]
  have hperm := List.mergeSort_perm (dictSet h.data show_id t) (fun a b => lexLe a.1 b.1)
  have hnd2 : ((dictSet h.data show_id t).map Prod.fst).Nodup :=
    dictSet_keys_nodup show_id t hnodup
  have hndsorted :
      ((((dictSet h.data show_id t).mergeSort (fun a b => lexLe a.1 b.1)).map
        Prod.fst)).Nodup :=
    ((hperm.map Prod.fst).nodup_iff).2 hnd2
  have hmem : (show_id, t) ∈
      (dictSet h.data show_id t).mergeSort (fun a b => lexLe a.1 b.1) :=
    hperm.mem_iff.2 (mem_dictSet_self h.data show_id t)
  have hget : History.get
      ⟨h.history_file,
        (((dictSet h.data show_id t).mergeSort (fun a b => lexLe a.1 b.1)).foldl
          (fun d e => dictSet d e.1 e.2) [])⟩ show_id = some t :=
    dictGet_foldl_mem _ [] hndsorted hmem
  exact ⟨hfile, htmp, hother, ⟨_, hload, hget⟩⟩

/-- Witness for C7 at a concrete input: empty prior history at path
`hist`, show id `show1`, a concrete timestamp, an empty filesystem. -/
theorem claim_C7_history_roundtrip_witness :
    ((History.set ⟨("hist").data, []⟩ ("show1").data ⟨2024, 6, 1, 12, 30, 45, 0, 0⟩
        (fun _ => none)).2 ("hist").data =
      some (History.saveLines (History.set ⟨("hist").data, []⟩ ("show1").data
        ⟨2024, 6, 1, 12, 30, 45, 0, 0⟩ (fun _ => none)).1)) ∧
    ((History.set ⟨("hist").data, []⟩ ("show1").data ⟨2024, 6, 1, 12, 30, 45, 0, 0⟩
        (fun _ => none)).2 (("hist").data ++ (".temp").data) = none) ∧
    (∀ q, q ≠ ("hist").data → q ≠ ("hist").data ++ (".temp").data →
      (History.set ⟨("hist").data, []⟩ ("show1").data ⟨2024, 6, 1, 12, 30, 45, 0, 0⟩
        (fun _ => none)).2 q = none) ∧
    ∃ h3, History.load ("hist").data
        (History.set ⟨("hist").data, []⟩ ("show1").data ⟨2024, 6, 1, 12, 30, 45, 0, 0⟩
          (fun _ => none)).2 = some h3 ∧
      h3.get ("show1").data = some ⟨2024, 6, 1, 12, 30, 45, 0, 0⟩ :=
  claim_C7_history_roundtrip ⟨("hist").data, []⟩ ("show1").data
    ⟨2024, 6, 1, 12, 30, 45, 0, 0⟩ (fun _ => none) (by decide) (by decide) (by decide)
    (by intro e he; simp at he) (by simp)

/-! ## Recurrence evaluation (claim C3) -/

/-- C3: the due decision of `check_show` as a function of the cron
expression, the last-run timestamp, now, and the force-selected flag: a
force-selected show is due, a show with no last-run is due; otherwise
the show is due exactly when the next cron instant after the last run is
not in the future relative to now. -/
theorem claim_C3_recurrence_due (env : Env) (s : LoadedShow) (last : Option Int)
    (sel : Option String) :
    (check_show env s last sel).1 = true ↔
      sel ≠ none ∨ last = none ∨
        ∃ lp, last = some lp ∧ env.cronNext s.cron lp ≤ env.now := by
  cases sel with
  | some v =>
    constructor
    · intro _
      exact Or.inl (by simp)
    · intro _
      rfl
  | none =>
    cases last with
    | none =>
      constructor
      · intro _
        exact Or.inr (Or.inl rfl)
      · intro _
        rfl
    | some lp =>
      simp only [check_show]
      by_cases hc : env.now < env.cronNext s.cron lp
      · rw [if_pos hc]
        constructor
        · intro h
          exact absurd h (by simp)
        · rintro (h | h | ⟨lp2, heq, hle⟩)
          · exact absurd rfl h
          · exact Option.noConfusion h
          · injection heq with heq2
            subst heq2
            exact absurd hle (by omega)
      · rw [if_neg hc]
        constructor
        · intro _
          exact Or.inr (Or.inr ⟨lp, rfl, by omega⟩)
        · intro _
          rfl

/-! ## Failure propagation across shows (claim C1) -/

/-- C1 counterexample: with two due shows where the first's download
raises, the orchestrator loop stops: the second show is never checked,
no history entry is written for it, even though it was due. -/
theorem claim_C1_counterexample :
    (mainLoop cexEnvC1 none
      [⟨"s1", "cronv", ⟨2024, 1, 1, 0, 0, 0, 0, 0⟩⟩,
       ⟨"s2", "cronv", ⟨2024, 1, 1, 0, 0, 0, 0, 0⟩⟩] []).checked = [] ∧
    (mainLoop cexEnvC1 none
      [⟨"s1", "cronv", ⟨2024, 1, 1, 0, 0, 0, 0, 0⟩⟩,
       ⟨"s2", "cronv", ⟨2024, 1, 1, 0, 0, 0, 0, 0⟩⟩] []).err = some "boom" ∧
    dictGet (mainLoop cexEnvC1 none
      [⟨"s1", "cronv", ⟨2024, 1, 1, 0, 0, 0, 0, 0⟩⟩,
       ⟨"s2", "cronv", ⟨2024, 1, 1, 0, 0, 0, 0, 0⟩⟩] []).hist "s2" = none ∧
    (check_show cexEnvC1 ⟨"s2", "cronv", ⟨2024, 1, 1, 0, 0, 0, 0, 0⟩⟩ none none).1 =
      true :=
  ⟨rfl, rfl, rfl, rfl⟩

/-- C1 (amended): an error in one show's run aborts the entire remaining
run: the shows before the failing one are checked normally, and neither
the failing show nor any show after it is checked. -/
theorem claim_C1_failure_aborts_run (env : Env) (sel : Option String)
    (pre : List LoadedShow) (f : LoadedShow) (post : List LoadedShow)
    (hist0 : List (String × Int)) (e : String)
    (hpre : ∀ s ∈ pre, ∀ last, (check_show env s last sel).2 = .ok env.now)
    (hf : ∀ last, (check_show env f last sel).2 = .error e) :
    ∃ hF, mainLoop env sel (pre ++ f :: post) hist0 =
      ⟨hF, pre.map (fun s => s.id), some e⟩ := by
  induction pre generalizing hist0 with
  | nil =>
    rw [List.nil_append, mainLoop, hf (dictGet hist0 f.id)]
    exact ⟨hist0, rfl⟩
  | cons s pre0 ih =>
    obtain ⟨hF, hrec⟩ :=
      ih (dictSet hist0 s.id env.now)
        (fun x hx last => hpre x (List.mem_cons_of_mem s hx) last)
    refine ⟨hF, ?_⟩
    rw [List.cons_append, mainLoop, hpre s (List.mem_cons_self s pre0) (dictGet hist0 s.id)]
    simp only [hrec, List.map_cons]

/-- Witness for C1 at a concrete input: show `s0` succeeds, `s1` fails,
`s2` follows; the run ends at `s1` with only `s0` checked. -/
theorem claim_C1_failure_aborts_run_witness :
    ∃ hF : List (String × Int), mainLoop cexEnvC1 none
      ([⟨"s0", "cronv", ⟨2024, 1, 1, 0, 0, 0, 0, 0⟩⟩] ++
        ⟨"s1", "cronv", ⟨2024, 1, 1, 0, 0, 0, 0, 0⟩⟩ ::
        [⟨"s2", "cronv", ⟨2024, 1, 1, 0, 0, 0, 0, 0⟩⟩]) [] =
      ⟨hF, ["s0"], some "boom"⟩ :=
  claim_C1_failure_aborts_run cexEnvC1 none
    [⟨"s0", "cronv", ⟨2024, 1, 1, 0, 0, 0, 0, 0⟩⟩]
    ⟨"s1", "cronv", ⟨2024, 1, 1, 0, 0, 0, 0, 0⟩⟩
    [⟨"s2", "cronv", ⟨2024, 1, 1, 0, 0, 0, 0, 0⟩⟩] [] "boom"
    (by
      intro s hs last
      simp only [List.mem_singleton] at hs
      subst hs
      cases last with
      | none => rfl
      | some lp => rfl)
    (by
      intro last
      cases last with
      | none => rfl
      | some lp => rfl)

/-! ## History update semantics (claims C2) -/

theorem check_show_ok_now (env : Env) (s : LoadedShow) (last : Option Int)
    (sel : Option String) (t : Int) (h : (check_show env s last sel).2 = .ok t) :
    t = env.now := by
  cases sel with
  | some v =>
    simp only [check_show] at h
    cases hdl : env.dl s.id with
    | error u =>
      rw [hdl] at h
      simp at h
    | ok u =>
      rw [hdl] at h
      simp at h
      exact h.symm
  | none =>
    cases last with
    | none =>
      simp only [check_show] at h
      cases hdl : env.dl s.id with
      | error u =>
        rw [hdl] at h
        simp at h
      | ok u =>
        rw [hdl] at h
        simp at h
        exact h.symm
    | some lp =>
      simp only [check_show] at h
      by_cases hc : env.now < env.cronNext s.cron lp
      · rw [if_pos hc] at h
        simp at h
        exact h.symm
      · rw [if_neg hc] at h
        cases hdl : env.dl s.id with
        | error u =>
          rw [hdl] at h
          simp at h
        | ok u =>
          rw [hdl] at h
          simp at h
          exact h.symm

theorem mainLoop_hist_now (env : Env) (sel : Option String) :
    ∀ (shows : List LoadedShow) (hist0 : List (String × Int)) (sid : String),
      (dictGet hist0 sid = some env.now →
        dictGet (mainLoop env sel shows hist0).hist sid = some env.now) ∧
      (sid ∈ (mainLoop env sel shows hist0).checked →
        dictGet (mainLoop env sel shows hist0).hist sid = some env.now) := by
  intro shows
  induction shows with
  | nil =>
    intro hist0 sid
    exact ⟨fun h => h, fun h => absurd h (by simp [mainLoop])⟩
  | cons s rest ih =>
    intro hist0 sid
    cases hch : (check_show env s (dictGet hist0 s.id) sel).2 with
    | error e =>
      constructor
      · intro h
        simp only [mainLoop, hch]
        exact h
      · intro h
        simp only [mainLoop, hch] at h
        simp at h
    | ok t =>
      have ht : t = env.now := check_show_ok_now env s _ sel t hch
      subst ht
      have hset : dictGet (dictSet hist0 s.id env.now) sid = some env.now →
          dictGet (mainLoop env sel rest (dictSet hist0 s.id env.now)).hist sid =
            some env.now :=
        (ih (dictSet hist0 s.id env.now) sid).1
      constructor
      · intro h
        simp only [mainLoop, hch]
        apply hset
        by_cases heq : sid = s.id
        · subst heq
          exact dictGet_dictSet_self hist0 s.id env.now
        · rw [dictGet_dictSet_ne hist0 env.now heq]
          exact h
      · intro h
        simp only [mainLoop, hch] at h ⊢
        rcases List.mem_cons.1 h with heq | h2
        · subst heq
          apply hset
          exact dictGet_dictSet_self hist0 s.id env.now
        · exact (ih (dictSet hist0 s.id env.now) sid).2 h2

/-- C2 counterexample: a show that is checked but found not due (next
cron instant 20 is after now 10) still has its stored timestamp
overwritten: the stored value changes from 5 to 10 although the show was
not processed. -/
theorem claim_C2_counterexample :
    (check_show cexEnvC2 ⟨"s1", "cronv", ⟨2024, 1, 1, 0, 0, 0, 0, 0⟩⟩ (some 5) none).1 =
      false ∧
    (mainLoop cexEnvC2 none [⟨"s1", "cronv", ⟨2024, 1, 1, 0, 0, 0, 0, 0⟩⟩]
      [("s1", 5)]).err = none ∧
    dictGet (mainLoop cexEnvC2 none [⟨"s1", "cronv", ⟨2024, 1, 1, 0, 0, 0, 0, 0⟩⟩]
      [("s1", 5)]).hist "s1" = some 10 ∧
    (10 : Int) ≠ 5 :=
  ⟨rfl, rfl, rfl, by decide⟩

/-- C2 (amended): after a run, every show whose check completed without
error has its stored timestamp overwritten with the time captured at the
start of the check (`now`), whether or not the show was due or actually
processed. -/
theorem claim_C2_history_update (env : Env) (sel : Option String)
    (shows : List LoadedShow) (hist0 : List (String × Int)) (sid : String)
    (h : sid ∈ (mainLoop env sel shows hist0).checked) :
    dictGet (mainLoop env sel shows hist0).hist sid = some env.now :=
  (mainLoop_hist_now env sel shows hist0 sid).2 h

/-- Witness for C2 at a concrete input: the not-due show `s1` is checked
without error and its stored timestamp becomes `now` (10). -/
theorem claim_C2_history_update_witness :
    dictGet (mainLoop cexEnvC2 none [⟨"s1", "cronv", ⟨2024, 1, 1, 0, 0, 0, 0, 0⟩⟩]
      [("s1", 5)]).hist "s1" = some cexEnvC2.now :=
  claim_C2_history_update cexEnvC2 none [⟨"s1", "cronv", ⟨2024, 1, 1, 0, 0, 0, 0, 0⟩⟩]
    [("s1", 5)] "s1" (by decide)

/-! ## Exit status (claims C9) -/

/-- C9 counterexample: a configuration error (non-mapping document) makes
the program exit early, but with exit status 0 — the bare `exit()` call
reports success, not the claimed non-zero status. -/
theorem claim_C9_counterexample :
    (∃ e, load_config RawConfig.notMap none = .error e) ∧
    (Yt2pc.main RawConfig.notMap none cexEnvC9 []).exitCode = 0 ∧
    Yt2pc.main RawConfig.notMap none cexEnvC9 [] = Outcome.earlyExit 0 :=
  ⟨⟨_, rfl⟩, rfl, rfl⟩

/-- C9 (amended): a configuration error makes the program exit early with
status zero (the bare `exit()` reports success); with a valid
configuration and a show loop completing without error it ends with
status zero. -/
theorem claim_C9_exit_codes (raw : RawConfig) (sel : Option String) (env : Env)
    (hist0 : List (String × Int)) :
    (∀ m, load_config raw sel = .error (.valueError m) →
      Yt2pc.main raw sel env hist0 = Outcome.earlyExit 0) ∧
    (∀ cfg, load_config raw sel = .ok cfg →
      (mainLoop env sel cfg.shows hist0).err = none →
      Yt2pc.main raw sel env hist0 = Outcome.finished 0) := by
  constructor
  · intro m hm
    unfold main
    rw [hm]
  · intro cfg hcfg herr
    unfold main
    rw [hcfg]
    simp [herr]

/-- Witness for C9: the non-mapping document exits early with status 0;
an empty but valid configuration finishes with status 0. -/
theorem claim_C9_exit_codes_witness :
    Yt2pc.main RawConfig.notMap none cexEnvC9 [] = Outcome.earlyExit 0 ∧
    Yt2pc.main (RawConfig.map requiredMainKeys (some [])) none cexEnvC9 [] =
      Outcome.finished 0 :=
  ⟨(claim_C9_exit_codes RawConfig.notMap none cexEnvC9 []).1
      "Bad general config format, must be a dict or map." rfl,
   (claim_C9_exit_codes (RawConfig.map requiredMainKeys (some [])) none cexEnvC9 []).2
      ⟨requiredMainKeys, []⟩ rfl rfl⟩

/-! ## Config validation (claims C8) -/

theorem contains_false_iff (keys : List String) (k : String) :
    keys.contains k = false ↔ ¬ k ∈ keys := by
  constructor
  · intro h hmem
    have htrue : keys.contains k = true := List.elem_iff.2 hmem
    rw [h] at htrue
    exact absurd htrue (by decide)
  · intro h
    cases hcon : keys.contains k with
    | false => rfl
    | true => exact absurd (List.elem_iff.1 hcon) h

theorem req_filter_isEmpty_false_iff (req keys : List String) :
    ((req.filter (fun k => !(keys.contains k))).isEmpty = false) ↔
      ∃ k ∈ req, ¬ k ∈ keys := by
  constructor
  · intro h
    cases hfl : req.filter (fun k => !(keys.contains k)) with
    | nil =>
      rw [hfl] at h
      simp at h
    | cons a as =>
      have ha : a ∈ req.filter (fun k => !(keys.contains k)) := by
        rw [hfl]
        simp
      have h2 := List.mem_filter.1 ha
      refine ⟨a, h2.1, ?_⟩
      have h3 : keys.contains a = false := by
        have hb := h2.2
        cases hcon : keys.contains a with
        | false => rfl
        | true =>
          rw [hcon] at hb
          exact absurd hb (by decide)
      exact (contains_false_iff keys a).1 h3
  · rintro ⟨k, hk, hnk⟩
    have hmem : k ∈ req.filter (fun x => !(keys.contains x)) := by
      refine List.mem_filter.2 ⟨hk, ?_⟩
      rw [(contains_false_iff keys k).2 hnk]
      rfl
    cases hfl : req.filter (fun x => !(keys.contains x)) with
    | nil =>
      rw [hfl] at hmem
      simp at hmem
    | cons a as =>
      rfl

theorem loadShows_error_of_badId (sel : Option String) :
    ∀ (shows : List (String × RawShow)), (∃ p ∈ shows, strIsAlnum p.1 = false) →
      ∃ m, loadShows sel shows = .error m := by
  intro shows
  induction shows with
  | nil =>
    rintro ⟨p, hp, _⟩
    simp at hp
  | cons q rest ih =>
    rintro ⟨p, hp, hbad⟩
    obtain ⟨qid, qd⟩ := q
    rw [loadShows]
    by_cases h1 : strIsAlnum qid = false
    · rw [if_pos h1]
      exact ⟨_, rfl⟩
    · rw [if_neg h1]
      have hrest : ∃ p ∈ rest, strIsAlnum p.1 = false := by
        rcases List.mem_cons.1 hp with heq | hm
        · subst heq
          exact absurd hbad h1
        · exact ⟨p, hm, hbad⟩
      obtain ⟨m, hm⟩ := ih hrest
      by_cases h2 : sel ≠ none ∧ sel ≠ some qid
      · rw [if_pos h2]
        exact ⟨m, hm⟩
      · rw [if_neg h2]
        by_cases h3 : (requiredShowKeys.filter
            (fun k => !(qd.keys.contains k))).isEmpty = false
        · rw [if_pos h3]
          exact ⟨_, rfl⟩
        · rw [if_neg h3]
          rw [hm]
          exact ⟨m, rfl⟩

theorem loadShows_error_of_missingKeys (sel : Option String) :
    ∀ (shows : List (String × RawShow)),
      (∃ p ∈ shows, (sel = none ∨ sel = some p.1) ∧
        ∃ k ∈ requiredShowKeys, ¬ k ∈ p.2.keys) →
      ∃ m, loadShows sel shows = .error m := by
  intro shows
  induction shows with
  | nil =>
    rintro ⟨p, hp, _⟩
    simp at hp
  | cons q rest ih =>
    rintro ⟨p, hp, hselp, k, hk, hnk⟩
    obtain ⟨qid, qd⟩ := q
    rw [loadShows]
    by_cases h1 : strIsAlnum qid = false
    · rw [if_pos h1]
      exact ⟨_, rfl⟩
    · rw [if_neg h1]
      rcases List.mem_cons.1 hp with heq | hm
      · subst heq
        have hskip : ¬ (sel ≠ none ∧ sel ≠ some qid) := by
          rcases hselp with h | h
          · exact fun hc => hc.1 h
          · exact fun hc => hc.2 h
        rw [if_neg hskip]
        have hmiss : (requiredShowKeys.filter
            (fun kk => !(qd.keys.contains kk))).isEmpty = false :=
          (req_filter_isEmpty_false_iff requiredShowKeys qd.keys).2 ⟨k, hk, hnk⟩
        rw [if_pos hmiss]
        exact ⟨_, rfl⟩
      · obtain ⟨m, hm⟩ := ih ⟨p, hm, hselp, k, hk, hnk⟩
        by_cases h2 : sel ≠ none ∧ sel ≠ some qid
        · rw [if_pos h2]
          exact ⟨m, hm⟩
        · rw [if_neg h2]
          by_cases h3 : (requiredShowKeys.filter
              (fun kk => !(qd.keys.contains kk))).isEmpty = false
          · rw [if_pos h3]
            exact ⟨_, rfl⟩
          · rw [if_neg h3]
            rw [hm]
            exact ⟨m, rfl⟩

theorem loadShows_ok_shape (sel : Option String) :
    ∀ (shows : List (String × RawShow)) (ls : List LoadedShow),
      loadShows sel shows = .ok ls →
      ∀ s ∈ ls, ∃ p ∈ shows, s.id = p.1 ∧ s.cron = p.2.cron ∧
        s.start = normalizeStart p.2.start := by
  intro shows
  induction shows with
  | nil =>
    intro ls h s hs
    rw [loadShows] at h
    injection h with h2
    subst h2
    simp at hs
  | cons q rest ih =>
    intro ls h s hs
    obtain ⟨qid, qd⟩ := q
    rw [loadShows] at h
    by_cases h1 : strIsAlnum qid = false
    · rw [if_pos h1] at h
      simp at h
    · rw [if_neg h1] at h
      by_cases h2 : sel ≠ none ∧ sel ≠ some qid
      · rw [if_pos h2] at h
        obtain ⟨p, hp, hrest⟩ := ih ls h s hs
        exact ⟨p, List.mem_cons_of_mem _ hp, hrest⟩
      · rw [if_neg h2] at h
        by_cases h3 : (requiredShowKeys.filter
            (fun k => !(qd.keys.contains k))).isEmpty = false
        · rw [if_pos h3] at h
          simp at h
        · rw [if_neg h3] at h
          cases hrec : loadShows sel rest with
          | error m =>
            rw [hrec] at h
            simp at h
          | ok ls0 =>
            rw [hrec] at h
            injection h with h4
            subst h4
            rcases List.mem_cons.1 hs with heq | hmem
            · subst heq
              exact ⟨(qid, qd), List.mem_cons_self _ _, rfl, rfl, rfl⟩
            · obtain ⟨p, hp, hrest⟩ := ih ls0 hrec s hmem
              exact ⟨p, List.mem_cons_of_mem _ hp, hrest⟩

/-- C8 counterexample: with `--show s1` selected, the configuration
`rawC8` whose show `s2` is missing all five required keys loads
successfully — the missing-keys check happens only after the selection
skip, so the claimed "regardless of which show was selected" fails. -/
theorem claim_C8_counterexample :
    (∃ k ∈ requiredShowKeys, ¬ k ∈ ([] : List String)) ∧
    load_config rawC8 (some "s1") =
      .ok ⟨requiredMainKeys, [⟨"s1", "cronv", ⟨2024, 1, 1, 0, 0, 0, 0, 0⟩⟩]⟩ := by
  refine ⟨⟨"title", by simp [requiredShowKeys], by simp⟩, ?_⟩
  rfl

/-- C8 (amended): a non-mapping top level, a missing main-section key,
and a non-alphanumeric show id each raise a configuration error
regardless of selection; a show missing one of its five required keys
raises a configuration error only when it is not skipped by the `--show`
selection (a non-selected show is not validated for missing keys); and
every accepted show's start timestamp is normalized to a timezone-aware
value at UTC offset zero truncated to a calendar day. -/
theorem claim_C8_config_validation (sel : Option String) :
    (∃ m, load_config RawConfig.notMap sel = .error (.valueError m)) ∧
    (∀ mainKeys showsOpt, (∃ r ∈ requiredMainKeys, ¬ r ∈ mainKeys) →
      ∃ m, load_config (RawConfig.map mainKeys showsOpt) sel = .error (.valueError m)) ∧
    (∀ mainKeys shows, (∃ p ∈ shows, strIsAlnum p.1 = false) →
      ∃ m, load_config (RawConfig.map mainKeys (some shows)) sel =
        .error (.valueError m)) ∧
    (∀ mainKeys shows, (∃ p ∈ shows, (sel = none ∨ sel = some p.1) ∧
        ∃ k ∈ requiredShowKeys, ¬ k ∈ p.2.keys) →
      ∃ m, load_config (RawConfig.map mainKeys (some shows)) sel =
        .error (.valueError m)) ∧
    (∀ mainKeys shows cfg,
      load_config (RawConfig.map mainKeys (some shows)) sel = .ok cfg →
      ∀ s ∈ cfg.shows, ∃ p ∈ shows, s.id = p.1 ∧ s.cron = p.2.cron ∧
        s.start = ⟨p.2.start.year, p.2.start.month, p.2.start.day, 0, 0, 0, 0, 0⟩) := by
  refine ⟨⟨_, rfl⟩, ?_, ?_, ?_, ?_⟩
  · intro mk so hx
    simp only [load_config]
    rw [if_pos ((req_filter_isEmpty_false_iff requiredMainKeys mk).2 hx)]
    exact ⟨_, rfl⟩
  · intro mk shows hbad
    simp only [load_config]
    by_cases hmain : ((requiredMainKeys.filter
        (fun k => !(mk.contains k))).isEmpty = false)
    · rw [if_pos hmain]
      exact ⟨_, rfl⟩
    · rw [if_neg hmain]
      obtain ⟨m, hm⟩ := loadShows_error_of_badId sel shows hbad
      rw [hm]
      exact ⟨m, rfl⟩
  · intro mk shows hmiss
    simp only [load_config]
    by_cases hmain : ((requiredMainKeys.filter
        (fun k => !(mk.contains k))).isEmpty = false)
    · rw [if_pos hmain]
      exact ⟨_, rfl⟩
    · rw [if_neg hmain]
      obtain ⟨m, hm⟩ := loadShows_error_of_missingKeys sel shows hmiss
      rw [hm]
      exact ⟨m, rfl⟩
  · intro mk shows cfg h s hs
    simp only [load_config] at h
    by_cases hmain : ((requiredMainKeys.filter
        (fun k => !(mk.contains k))).isEmpty = false)
    · rw [if_pos hmain] at h
      simp at h
    · rw [if_neg hmain] at h
      cases hls : loadShows sel shows with
      | error m =>
        rw [hls] at h
        simp at h
      | ok ls =>
        rw [hls] at h
        injection h with h2
        subst h2
        exact loadShows_ok_shape sel shows ls hls s hs

/-- Witness for C8, exercising each validation rule at a concrete input:
the non-mapping document, a main section with no keys, a show id with a
hyphen, and a selected show with no keys. -/
theorem claim_C8_config_validation_witness :
    (∃ m, load_config RawConfig.notMap none = .error (.valueError m)) ∧
    (∃ m, load_config (RawConfig.map [] (some [])) none = .error (.valueError m)) ∧
    (∃ m, load_config (RawConfig.map requiredMainKeys
      (some [("bad-id", ⟨requiredShowKeys, "cronv", ⟨2024, 1, 1, 0, 0, 0, 0, 0⟩⟩)]))
      none = .error (.valueError m)) ∧
    (∃ m, load_config (RawConfig.map requiredMainKeys
      (some [("s2", ⟨[], "cronv", ⟨2024, 1, 1, 0, 0, 0, 0, 0⟩⟩)])) none =
      .error (.valueError m)) :=
  ⟨(claim_C8_config_validation none).1,
   (claim_C8_config_validation none).2.1 [] (some [])
     ⟨"base-public-url", by simp [requiredMainKeys], by simp⟩,
   (claim_C8_config_validation none).2.2.1 requiredMainKeys
     [("bad-id", ⟨requiredShowKeys, "cronv", ⟨2024, 1, 1, 0, 0, 0, 0, 0⟩⟩)]
     ⟨("bad-id", ⟨requiredShowKeys, "cronv", ⟨2024, 1, 1, 0, 0, 0, 0, 0⟩⟩),
       by simp, by decide⟩,
   (claim_C8_config_validation none).2.2.2.1 requiredMainKeys
     [("s2", ⟨[], "cronv", ⟨2024, 1, 1, 0, 0, 0, 0, 0⟩⟩)]
     ⟨("s2", ⟨[], "cronv", ⟨2024, 1, 1, 0, 0, 0, 0, 0⟩⟩), by simp, Or.inl rfl,
       "title", by simp [requiredShowKeys], by simp⟩⟩
